import Mathlib

/-!
# release-dir-list: classifier, listing parser, fetch stage and index generator

A shallow embedding of the Go sources
`internal/downloader/{categorizer,parser,downloader}.go`,
`internal/generator/{pypi,types}.go` and `internal/cli/generate.go`,
followed by the properties proved about them.

Go strings are modelled by Lean `String`s (sequences of Unicode code points, i.e.
valid UTF-8 text).  Searching for an ASCII pattern gives the same answer on the
code points as on the bytes, because UTF-8 is self-synchronising.

What lies outside the program is explicit: the network and the refusals of the
filesystem are the fields of `Env`, the filesystem content is a map `FS` threaded through
the stateful functions, and a Go `error` is its message.  The library functions the
sources call are modelled after the Go standard library: `path/filepath` as on Unix,
`regexp` for the one pattern of the parser, and the escapers `html/template` attaches to
the actions of the two index templates.
-/

namespace ReleaseDirList

/-! ## Go `strings` helpers -/

/-- Go `strings.HasSuffix(s, suffix)`. -/
def HasSuffix (s suffix : String) : Bool :=
  suffix.data.isSuffixOf s.data

/-- Go `strings.HasPrefix(s, prefix)`. -/
def HasPrefix (s pre : String) : Bool :=
  pre.data.isPrefixOf s.data

/-- Occurrence of `sub` somewhere in `l`, scanning the start positions left to right. -/
def containsAt (sub : List Char) : List Char → Bool
  | [] => sub.isEmpty
  | c :: cs => sub.isPrefixOf (c :: cs) || containsAt sub cs

/-- Go `strings.Contains(s, substr)`. -/
def Contains (s substr : String) : Bool :=
  containsAt substr.data s.data

/-- Lower-casing of one ASCII letter (`'A'..'Z'` to `'a'..'z'`). -/
def asciiLower (c : Char) : Char :=
  if 65 ≤ c.toNat ∧ c.toNat ≤ 90 then Char.ofNat (c.toNat + 32) else c

/-- Go `strings.ToLower(s)`.  ASCII letters are mapped by the fixed rule; for the code
points above 127 Go consults the Unicode case tables, which are taken as the parameter
`unicodeLower`. -/
def ToLower (unicodeLower : Char → Char) (s : String) : String :=
  String.mk (s.data.map (fun c => if c.toNat < 128 then asciiLower c else unicodeLower c))

/-! ## `categorizer.go` -/

/-- Go `type CategorizedFiles struct`. -/
structure CategorizedFiles where
  Linux : List String
  Mac : List String
  Windows : List String
deriving DecidableEq, Repr

/-- Body of the `for _, file := range files` loop of `CategorizeFiles`: the `switch`
with its four cases, appending `file` (original spelling) to at most one bucket. -/
def categorizeStep (unicodeLower : Char → Char) (categorized : CategorizedFiles)
    (file : String) : CategorizedFiles :=
  let lowerFile := ToLower unicodeLower file
  -- macOS files
  if Contains lowerFile "macos" || Contains lowerFile "darwin" ||
      HasSuffix lowerFile ".pkg" || HasSuffix lowerFile ".dmg" then
    { categorized with Mac := categorized.Mac ++ [file] }
  -- Windows files
  else if HasSuffix lowerFile ".exe" || HasSuffix lowerFile ".msi" ||
      (HasSuffix lowerFile ".zip" &&
        (Contains lowerFile "win" || Contains lowerFile "embed")) then
    { categorized with Windows := categorized.Windows ++ [file] }
  -- Linux files (tar.xz, tar.gz, tgz)
  else if HasSuffix lowerFile ".tar.xz" || HasSuffix lowerFile ".tar.gz" ||
      HasSuffix lowerFile ".tgz" then
    -- Exclude if it is specifically for another OS
    if !Contains lowerFile "macos" && !Contains lowerFile "win" then
      { categorized with Linux := categorized.Linux ++ [file] }
    else categorized
  -- Default to Linux for other archives
  else
    if HasSuffix lowerFile ".tar" || HasSuffix lowerFile ".bz2" ||
        HasSuffix lowerFile ".xz" then
      { categorized with Linux := categorized.Linux ++ [file] }
    else categorized

/-- Go `CategorizeFiles(files []string) CategorizedFiles`: the loop started from the
zero value of the struct. -/
def CategorizeFiles (unicodeLower : Char → Char) (files : List String) : CategorizedFiles :=
  files.foldl (categorizeStep unicodeLower) ⟨[], [], []⟩

/-! ### The rule set as the specification words it -/

/-- Rule 1 (Mac): contains `macos` or `darwin`, or ends with `.pkg` or `.dmg`. -/
def macRule (lower : String) : Bool :=
  Contains lower "macos" || Contains lower "darwin" ||
    HasSuffix lower ".pkg" || HasSuffix lower ".dmg"

/-- Rule 2 (Windows): ends with `.exe` or `.msi`, or ends with `.zip` and contains
`win` or `embed`. -/
def windowsRule (lower : String) : Bool :=
  HasSuffix lower ".exe" || HasSuffix lower ".msi" ||
    (HasSuffix lower ".zip" && (Contains lower "win" || Contains lower "embed"))

/-- The three tarball suffixes of rule 3. -/
def tarballSuffix (lower : String) : Bool :=
  HasSuffix lower ".tar.xz" || HasSuffix lower ".tar.gz" || HasSuffix lower ".tgz"

/-- Rules 3 and 4 (Linux): a tarball suffix with neither `macos` nor `win` in the name,
or no tarball suffix and one of `.tar`, `.bz2`, `.xz`. -/
def linuxRule (lower : String) : Bool :=
  (tarballSuffix lower && !Contains lower "macos" && !Contains lower "win") ||
    (!tarballSuffix lower &&
      (HasSuffix lower ".tar" || HasSuffix lower ".bz2" || HasSuffix lower ".xz"))

/-- First-match membership in the Mac bucket. -/
def inMac (unicodeLower : Char → Char) (file : String) : Bool :=
  macRule (ToLower unicodeLower file)

/-- First-match membership in the Windows bucket: not Mac, and the Windows rule. -/
def inWindows (unicodeLower : Char → Char) (file : String) : Bool :=
  !macRule (ToLower unicodeLower file) && windowsRule (ToLower unicodeLower file)

/-- First-match membership in the Linux bucket: neither Mac nor Windows, and the
Linux rule. -/
def inLinux (unicodeLower : Char → Char) (file : String) : Bool :=
  !macRule (ToLower unicodeLower file) && !windowsRule (ToLower unicodeLower file) &&
    linuxRule (ToLower unicodeLower file)

/-! ## `parser.go` -/

deriving instance DecidableEq for Except

/-- What `http.Get(url)` followed by reading the response body yields: a transport
error, or a response with its status code, the bytes of the body that were read, and the
read error if reading stopped early. -/
inductive HttpResult where
  | transportError (msg : String)
  | response (status : Nat) (body : String) (readErr : Option String)
deriving DecidableEq, Repr

/-- The world outside the program: the network (`http.Get`), the two filesystem calls
that can refuse a path (`os.MkdirAll`, `os.Create`; `none` is success, `some msg` the
error), the failure of a template write (`some (n, msg)`: the write to that path stops
with `msg` after `n` characters), and the hex-encoded SHA-256 digest of a byte stream. -/
structure Env where
  get : String → HttpResult
  mkdirAll : String → Option String
  create : String → Option String
  writeFault : String → Option (Nat × String)
  sha256Hex : String → String

/-- The filesystem as a map from path to file content. -/
abbrev FS := String → Option String

/-- Content of `path` replaced by `content`. -/
def FS.write (fs : FS) (path content : String) : FS :=
  fun p => if p = path then some content else fs p

/-- Remainder of `s` after the literal `lit`, when `s` starts with it. -/
def stripPrefix : List Char → List Char → Option (List Char)
  | [], s => some s
  | _ :: _, [] => none
  | p :: ps, c :: cs => if p = c then stripPrefix ps cs else none

/-- The literal `<a href="` opening the pattern. -/
def anchorOpen : List Char := ['<', 'a', ' ', 'h', 'r', 'e', 'f', '=', '"']

/-- The literal `">` closing the pattern. -/
def anchorClose : List Char := ['"', '>']

/-- Match of the regular expression `<a href="([^"]+)">` anchored at the start of `s`,
returning the capture group.  After the opening literal the class `[^"]+` takes the
longest run of characters other than `"` (at least one); a shorter run can never be
followed by the `"` the pattern needs next, so the greedy choice is the only match. -/
def matchAnchor (s : List Char) : Option (List Char) :=
  match stripPrefix anchorOpen s with
  | none => none
  | some rest =>
    let value := rest.takeWhile (fun c => c != '"')
    if value.isEmpty then none
    else
      match stripPrefix anchorClose (rest.dropWhile (fun c => c != '"')) with
      | none => none
      | some _ => some value

/-- Left-to-right search for successive non-overlapping matches, as `FindAll` does: at a
position where the pattern matches the capture is emitted and the search resumes right
after the match (`skip` counts the characters of the current match still to pass);
elsewhere it moves on by one character. -/
def scanAnchors : Nat → List Char → List (List Char)
  | _, [] => []
  | skip + 1, _ :: cs => scanAnchors skip cs
  | 0, c :: cs =>
    match matchAnchor (c :: cs) with
    | some value =>
      value :: scanAnchors (anchorOpen.length + value.length + anchorClose.length - 1) cs
    | none => scanAnchors 0 cs

/-- Go `regexp.MustCompile(...).FindAllStringSubmatch(body, -1)` for the pattern
`<a href="([^"]+)">`: one slice per match, holding the whole match and the group. -/
def FindAllStringSubmatch (body : String) : List (List String) :=
  (scanAnchors 0 body.data).map
    (fun value => [String.mk (anchorOpen ++ value ++ anchorClose), String.mk value])

/-- Body of the `for _, match := range matches` loop of `ParseDirectoryListing`. -/
def parseStep (files : List String) (m : List String) : List String :=
  if m.length > 1 then
    let filename := m.getD 1 ""
    -- Skip parent directory and subdirectories
    if filename == "../" || HasSuffix filename "/" then files
    -- Skip signature and metadata files
    else if HasSuffix filename ".sig" || HasSuffix filename ".crt" ||
        HasSuffix filename ".sigstore" || HasSuffix filename ".spdx.json" then files
    else files ++ [filename]
  else files

/-- Go `ParseDirectoryListing(url string) ([]string, error)`. -/
def ParseDirectoryListing (env : Env) (url : String) : Except String (List String) :=
  match env.get url with
  | .transportError msg => .error ("failed to fetch directory listing: " ++ msg)
  | .response status body readErr =>
    if status ≠ 200 then .error ("unexpected status code: " ++ toString status)
    else
      match readErr with
      | some msg => .error ("failed to read response body: " ++ msg)
      | none => .ok ((FindAllStringSubmatch body).foldl parseStep [])

/-! ### The parser's contract as the specification words it -/

/-- The VALUEs of the anchors `<a href="VALUE">` of a document, in document order. -/
def anchorValues (body : String) : List String :=
  (FindAllStringSubmatch body).map (fun m => m.getD 1 "")

/-- A filename is kept when it does not end with `/` and does not end with `.sig`,
`.crt`, `.sigstore` or `.spdx.json`. -/
def keptFilename (value : String) : Bool :=
  !HasSuffix value "/" && !HasSuffix value ".sig" && !HasSuffix value ".crt" &&
    !HasSuffix value ".sigstore" && !HasSuffix value ".spdx.json"

/-- A listing document written out: each item is some text followed by the anchor
`<a href="VALUE">`, and `trailer` is the text after the last anchor. -/
def listingDocument (items : List (String × String)) (trailer : String) : String :=
  items.foldr (fun item rest => item.1 ++ "<a href=\"" ++ item.2 ++ "\">" ++ rest) trailer

/-- Well-formedness of a written-out listing: no text chunk contains `<a href="`, and
every VALUE is non-empty and free of double quotes. -/
def wellFormedListing (items : List (String × String)) (trailer : String) : Prop :=
  (∀ item ∈ items, Contains item.1 "<a href=\"" = false ∧ item.2 ≠ "" ∧ '"' ∉ item.2.data) ∧
    Contains trailer "<a href=\"" = false

/-! ## Go `path/filepath` (Unix) -/

/-- Go `filepath.IsAbs(path)` on Unix: the path starts with `/`. -/
def IsAbs (path : String) : Bool :=
  HasPrefix path "/"

/-- Where the scan of `filepath.Clean` stands: at the start of a path element, inside
an element being copied, or on the second dot of a `..` element. -/
inductive CleanMode where
  | boundary
  | copying
  | skip
deriving DecidableEq, Repr

/-- The test `r+1 == n || path[r+1] == '/'` on the text after position `r`. -/
def elementEnds : List Char → Bool
  | [] => true
  | c :: _ => c == '/'

/-- The test `path[r+1] == '.' && (r+2 == n || path[r+2] == '/')`. -/
def dotDotEnds : List Char → Bool
  | [] => false
  | c :: rest => c == '.' && elementEnds rest

/-- The `..` backtrack of `filepath.Clean` on the reversed output buffer:
`out.w--` followed by `for out.w > dotdot && out[out.w] != '/' { out.w-- }`. -/
def backtrack (dotdot : Nat) : List Char → List Char
  | [] => []
  | last :: out => if out.length > dotdot && last != '/' then backtrack dotdot out else out

/-- The main loop `for r < n` of `filepath.Clean`, one character of the path per step;
`out` is the output buffer in reverse. -/
def cleanLoop (rooted : Bool) : CleanMode → List Char → Nat → List Char → List Char
  | _, out, _, [] => out
  | .skip, out, dotdot, _ :: rest => cleanLoop rooted .boundary out dotdot rest
  | .copying, out, dotdot, c :: rest =>
    if c = '/' then cleanLoop rooted .boundary out dotdot rest
    else cleanLoop rooted .copying (c :: out) dotdot rest
  | .boundary, out, dotdot, c :: rest =>
    -- empty path element
    if c = '/' then cleanLoop rooted .boundary out dotdot rest
    -- . element
    else if c = '.' && elementEnds rest then cleanLoop rooted .boundary out dotdot rest
    -- .. element: remove to last separator
    else if c = '.' && dotDotEnds rest then
      if out.length > dotdot then cleanLoop rooted .skip (backtrack dotdot out) dotdot rest
      else if !rooted then
        let out1 := if out.length > 0 then '/' :: out else out
        cleanLoop rooted .skip ('.' :: '.' :: out1) (out1.length + 2) rest
      else cleanLoop rooted .skip out dotdot rest
    -- real path element
    else
      let out1 :=
        if (rooted && out.length != 1) || (!rooted && out.length != 0) then '/' :: out
        else out
      cleanLoop rooted .copying (c :: out1) dotdot rest

/-- Go `filepath.Clean(path)` on Unix. -/
def Clean (path : String) : String :=
  match path.data with
  | [] => "."
  | c :: rest =>
    let out :=
      if c = '/' then cleanLoop true .boundary ['/'] 1 rest
      else cleanLoop false .boundary [] 0 (c :: rest)
    if out.length = 0 then "." else String.mk out.reverse

/-- Go `strings.Join(elems, "/")`. -/
def joinSlash : List String → String
  | [] => ""
  | [e] => e
  | e :: rest => e ++ "/" ++ joinSlash rest

/-- Go `filepath.Join(elem...)` on Unix: the elements from the first non-empty one on,
joined with `/` and cleaned; the empty string when all are empty. -/
def Join : List String → String
  | [] => ""
  | e :: rest => if e ≠ "" then Clean (joinSlash (e :: rest)) else Join rest

/-! ## `types.go` and `downloader.go` -/

/-- Go `type Artifact struct`. -/
structure Artifact where
  Filename : String
  URL : String
  SHA256 : String
  Size : Int
deriving DecidableEq, Repr

/-- Result of a Go call that returns `(value, error)` and may also panic. -/
inductive Outcome (α : Type) where
  | ok (value : α)
  | error (msg : String)
  | panic (msg : String)
deriving DecidableEq, Repr

/-- Go `map[string][]generator.Artifact`, read with `m[key]` (a missing key reads as
the empty slice). -/
abbrev ArtifactMap := String → List Artifact

/-- Go `m[key] = value`. -/
def ArtifactMap.set (m : ArtifactMap) (key : String) (value : List Artifact) : ArtifactMap :=
  fun k => if k = key then value else m k

/-- Go `make(map[string][]generator.Artifact)`. -/
def ArtifactMap.empty : ArtifactMap := fun _ => []

/-- The first five lines of `downloadAndHashFile`: the URL to request.  `none` is the
run-time panic of `baseURL[len(baseURL)-1]` on an empty `baseURL`. -/
def downloadURL (baseURL filename : String) : Option String :=
  if IsAbs baseURL then some (baseURL ++ filename)
  else
    match baseURL.data.getLast? with
    | none => none
    | some last => if last != '/' then some (baseURL ++ "/" ++ filename)
                   else some (baseURL ++ filename)

/-- Go `downloadAndHashFile(baseURL, filename, tempDir string) (generator.Artifact, error)`. -/
def downloadAndHashFile (env : Env) (baseURL filename tempDir : String) (fs : FS) :
    FS × Outcome Artifact :=
  match downloadURL baseURL filename with
  | none => (fs, .panic "index out of range [-1]")
  | some url =>
    -- Download file
    match env.get url with
    | .transportError msg => (fs, .error ("failed to download: " ++ msg))
    | .response status body readErr =>
      if status ≠ 200 then (fs, .error ("unexpected status code: " ++ toString status))
      else
        -- Create temp file
        let tempFile := Join [tempDir, filename]
        match env.create tempFile with
        | some msg => (fs, .error ("failed to create file: " ++ msg))
        | none =>
          -- Calculate hash while downloading
          let fs1 := fs.write tempFile body
          match readErr with
          | some msg => (fs1, .error ("failed to download file: " ++ msg))
          | none =>
            (fs1, .ok
              { Filename := filename, URL := url, SHA256 := env.sha256Hex body,
                Size := body.utf8ByteSize })

/-- One of the three loops of `DownloadAndHash` (they differ in the map key only):
`for _, file := range bucket`, stopping at the first file that fails. -/
def downloadBucket (env : Env) (baseURL tempDir platform : String) :
    List String → FS → ArtifactMap → FS × Outcome ArtifactMap
  | [], fs, artifacts => (fs, .ok artifacts)
  | file :: rest, fs, artifacts =>
    match downloadAndHashFile env baseURL file tempDir fs with
    | (fs1, .ok artifact) =>
      downloadBucket env baseURL tempDir platform rest fs1
        (artifacts.set platform (artifacts platform ++ [artifact]))
    | (fs1, .error msg) =>
      (fs1, .error ("failed to download " ++ platform ++ " file " ++ file ++ ": " ++ msg))
    | (fs1, .panic msg) => (fs1, .panic msg)

/-- Go `DownloadAndHash(baseURL string, categorized CategorizedFiles, outputDir string)
(map[string][]generator.Artifact, error)`. -/
def DownloadAndHash (env : Env) (baseURL : String) (categorized : CategorizedFiles)
    (outputDir : String) (fs : FS) : FS × Outcome ArtifactMap :=
  -- Create temp directory for downloads
  let tempDir := Join [outputDir, "temp-downloads"]
  match env.mkdirAll tempDir with
  | some msg => (fs, .error ("failed to create temp directory: " ++ msg))
  | none =>
    -- Download Linux files
    match downloadBucket env baseURL tempDir "linux" categorized.Linux fs ArtifactMap.empty with
    | (fs1, .ok artifacts1) =>
      -- Download Mac files
      match downloadBucket env baseURL tempDir "mac" categorized.Mac fs1 artifacts1 with
      | (fs2, .ok artifacts2) =>
        -- Download Windows files
        downloadBucket env baseURL tempDir "windows" categorized.Windows fs2 artifacts2
      | failed => failed
    | failed => failed

/-! ## Go `html/template` escaping, as applied to the two templates of `pypi.go` -/

/-- The table `htmlReplacementTable`: the replacement of one code point. -/
def htmlReplacement (c : Char) : List Char :=
  if c = Char.ofNat 0 then [Char.ofNat 0xFFFD]
  else if c = '"' then ['&', '#', '3', '4', ';']
  else if c = '&' then ['&', 'a', 'm', 'p', ';']
  else if c = '\'' then ['&', '#', '3', '9', ';']
  else if c = '+' then ['&', '#', '4', '3', ';']
  else if c = '<' then ['&', 'l', 't', ';']
  else if c = '>' then ['&', 'g', 't', ';']
  else [c]

/-- Go `htmlReplacer(s, htmlReplacementTable, true)`. -/
def htmlReplacer (s : String) : String :=
  String.mk (s.data.flatMap htmlReplacement)

/-- Go `htmlEscaper` on a plain string: the escaper of an action in element text. -/
def htmlEscaper (s : String) : String := htmlReplacer s

/-- Go `rcdataEscaper` on a plain string: the escaper of an action inside `<title>`. -/
def rcdataEscaper (s : String) : String := htmlReplacer s

/-- Go `attrEscaper` on a plain string: the last escaper of an action inside a quoted
attribute value. -/
def attrEscaper (s : String) : String := htmlReplacer s

/-- ASCII letter or digit. -/
def isAlnum (c : Char) : Bool :=
  (97 ≤ c.toNat && c.toNat ≤ 122) || (65 ≤ c.toNat && c.toNat ≤ 90) ||
    (48 ≤ c.toNat && c.toNat ≤ 57)

/-- Go `isHex`. -/
def isHex (c : Char) : Bool :=
  (48 ≤ c.toNat && c.toNat ≤ 57) || (97 ≤ c.toNat && c.toNat ≤ 102) ||
    (65 ≤ c.toNat && c.toNat ≤ 70)

/-- One lower-case hexadecimal digit. -/
def hexDigit (n : Nat) : Char :=
  if n < 10 then Char.ofNat (48 + n) else Char.ofNat (87 + n)

/-- The text `%xx` written by `fmt.Fprintf(b, "%%%02x", c)` for one byte. -/
def percentByte (b : Nat) : List Char :=
  ['%', hexDigit (b / 16), hexDigit (b % 16)]

/-- Whether `processURLOnto` copies the character `c` unchanged (`continue`), given the
text after it: reserved characters only when normalising, unreserved ones always, `%`
only when normalising and followed by two hex digits. -/
def urlKeep (norm : Bool) (c : Char) (rest : List Char) : Bool :=
  if c ∈ ['!', '#', '$', '&', '*', '+', ',', '/', ':', ';', '=', '?', '@', '[', ']'] then norm
  else if c ∈ ['-', '.', '_', '~'] then true
  else if c = '%' then
    norm && (match rest with
      | a :: b :: _ => isHex a && isHex b
      | _ => false)
  else isAlnum c

/-- Go `processURLOnto(s, norm, b)`: every byte that is not kept is percent-encoded (a
code point above 127 is all of its UTF-8 bytes). -/
def processURL (norm : Bool) : List Char → List Char
  | [] => []
  | c :: rest =>
    (if urlKeep norm c rest then [c]
      else (String.utf8EncodeChar c).flatMap (fun b => percentByte b.toNat)) ++
      processURL norm rest

/-- Go `urlNormalizer` on a plain string. -/
def urlNormalizer (s : String) : String := String.mk (processURL true s.data)

/-- Go `urlEscaper` on a plain string. -/
def urlEscaper (s : String) : String := String.mk (processURL false s.data)

/-- Simple case folding of one code point, as far as it can reach an ASCII letter:
ASCII upper case, the long s (U+017F) and the Kelvin sign (U+212A). -/
def foldChar (c : Char) : Char :=
  if c = Char.ofNat 0x017F then 's'
  else if c = Char.ofNat 0x212A then 'k'
  else asciiLower c

/-- Go `strings.EqualFold(s, t)` for an ASCII `t`. -/
def EqualFold (s : List Char) (t : String) : Bool :=
  s.map foldChar == t.data.map foldChar

/-- Go `isSafeURL(s)`: a scheme (the text before the first `:`, when it holds no `/`)
must be `http`, `https` or `mailto`. -/
def isSafeURL (s : String) : Bool :=
  let protocol := s.data.takeWhile (fun c => c != ':')
  if s.data.contains ':' && !protocol.contains '/' then
    EqualFold protocol "http" || EqualFold protocol "https" || EqualFold protocol "mailto"
  else true

/-- Go `urlFilter` on a plain string. -/
def urlFilter (s : String) : String :=
  if isSafeURL s then s else "#ZgotmplZ"

/-- The escaper pipeline that `html/template` attaches to an action, by the place of
the action: element text, `<title>` text, the start of a quoted `href` value, or the
part of a quoted `href` value after a `#`. -/
inductive Escaper where
  | text
  | rcdata
  | urlStart
  | urlFragment
deriving DecidableEq, Repr

/-- The pipeline run on the value of an action. -/
def Escaper.apply : Escaper → String → String
  | .text, s => htmlEscaper s
  | .rcdata, s => rcdataEscaper s
  | .urlStart, s => attrEscaper (urlNormalizer (urlFilter s))
  | .urlFragment, s => attrEscaper (urlEscaper s)

/-! ## `pypi.go` -/

/-- The fields of an Artifact that a template names. -/
inductive ArtifactField where
  | URL
  | SHA256
  | Filename
deriving DecidableEq, Repr

/-- A node inside the `range .Artifacts` block: literal text, or an action printing one
field of the current Artifact. -/
inductive ItemNode where
  | text (s : String)
  | field (f : ArtifactField) (esc : Escaper)
deriving DecidableEq, Repr

/-- A node of a parsed template: literal text, the action printing `.ProjectName`, or
the block `range .Artifacts` ... `end`. -/
inductive Node where
  | text (s : String)
  | projectName (esc : Escaper)
  | rangeArtifacts (body : List ItemNode)
deriving DecidableEq, Repr

/-- Go `const rootIndexTemplate`, parsed and escaped. -/
def rootIndexTemplate : List Node :=
  [ .text "<!DOCTYPE html>\n<html>\n<head>\n    <title>Simple Index</title>\n</head>\n<body>\n    <h1>Simple Index</h1>\n    <a href=\"",
    .projectName .urlStart,
    .text "/\">",
    .projectName .text,
    .text "</a>\n</body>\n</html>\n" ]

/-- Go `const projectIndexTemplate`, parsed and escaped. -/
def projectIndexTemplate : List Node :=
  [ .text "<!DOCTYPE html>\n<html>\n<head>\n    <title>Links for ",
    .projectName .rcdata,
    .text "</title>\n</head>\n<body>\n    <h1>Links for ",
    .projectName .text,
    .text "</h1>\n",
    .rangeArtifacts
      [ .text "    <a href=\"",
        .field .URL .urlStart,
        .text "#sha256=",
        .field .SHA256 .urlFragment,
        .text "\">",
        .field .Filename .text,
        .text "</a><br>\n" ],
    .text "</body>\n</html>\n" ]

/-- Go `type projectIndexData struct` (`rootIndexData` is the same without Artifacts). -/
structure projectIndexData where
  ProjectName : String
  Artifacts : List Artifact
deriving DecidableEq, Repr

/-- The value of a field of an Artifact. -/
def Artifact.field (a : Artifact) : ArtifactField → String
  | .URL => a.URL
  | .SHA256 => a.SHA256
  | .Filename => a.Filename

/-- Output of the body of the `range` block for one Artifact. -/
def executeItem (a : Artifact) : List ItemNode → String
  | [] => ""
  | .text s :: rest => s ++ executeItem a rest
  | .field f esc :: rest => esc.apply (a.field f) ++ executeItem a rest

/-- Output of the `range` block: the body once per Artifact, in order. -/
def executeRange (body : List ItemNode) : List Artifact → String
  | [] => ""
  | a :: rest => executeItem a body ++ executeRange body rest

/-- Go `tmpl.Execute(w, data)`: the text written for a template and its data. -/
def execute (data : projectIndexData) : List Node → String
  | [] => ""
  | .text s :: rest => s ++ execute data rest
  | .projectName esc :: rest => esc.apply data.ProjectName ++ execute data rest
  | .rangeArtifacts body :: rest => executeRange body data.Artifacts ++ execute data rest

/-- The common body of `generateRootIndex` and `generateProjectIndex` after the template
is parsed: `os.Create(path)`, then `tmpl.Execute(file, data)`.  A failed write leaves the
file with the part already written.  The returned error is `none` for Go's `nil`. -/
def writeTemplate (env : Env) (path : String) (tmpl : List Node) (data : projectIndexData)
    (fs : FS) : FS × Option String :=
  match env.create path with
  | some msg => (fs, some ("failed to create file: " ++ msg))
  | none =>
    match env.writeFault path with
    | some (n, msg) =>
      (fs.write path (String.mk ((execute data tmpl).data.take n)),
        some ("failed to execute template: " ++ msg))
    | none => (fs.write path (execute data tmpl), none)

/-- Go `generateRootIndex(path, projectName string) error`. -/
def generateRootIndex (env : Env) (path projectName : String) (fs : FS) :
    FS × Option String :=
  writeTemplate env path rootIndexTemplate { ProjectName := projectName, Artifacts := [] } fs

/-- Go `generateProjectIndex(path, projectName string, artifacts []Artifact) error`. -/
def generateProjectIndex (env : Env) (path projectName : String) (artifacts : List Artifact)
    (fs : FS) : FS × Option String :=
  writeTemplate env path projectIndexTemplate
    { ProjectName := projectName, Artifacts := artifacts } fs

/-- The loop `for _, platform := range platforms` of `GeneratePyPIStructure`. -/
def generatePlatforms (env : Env) (outputDir projectName : String) (artifacts : ArtifactMap) :
    List String → FS → FS × Option String
  | [], fs => (fs, none)
  | platform :: rest, fs =>
    -- Create directory structure
    let simpleDir := Join [outputDir, platform, "simple"]
    let projectDir := Join [simpleDir, projectName]
    match env.mkdirAll projectDir with
    | some msg => (fs, some ("failed to create directory " ++ projectDir ++ ": " ++ msg))
    | none =>
      -- Generate root index.html
      let rootIndexPath := Join [simpleDir, "index.html"]
      match generateRootIndex env rootIndexPath projectName fs with
      | (fs1, some msg) =>
        (fs1, some ("failed to generate root index for " ++ platform ++ ": " ++ msg))
      | (fs1, none) =>
        -- Generate project index.html
        let projectIndexPath := Join [projectDir, "index.html"]
        match generateProjectIndex env projectIndexPath projectName (artifacts platform)
            fs1 with
        | (fs2, some msg) =>
          (fs2, some ("failed to generate project index for " ++ platform ++ ": " ++ msg))
        | (fs2, none) => generatePlatforms env outputDir projectName artifacts rest fs2

/-- Go `GeneratePyPIStructure(outputDir, projectName string,
artifacts map[string][]Artifact) error`. -/
def GeneratePyPIStructure (env : Env) (outputDir projectName : String)
    (artifacts : ArtifactMap) (fs : FS) : FS × Option String :=
  generatePlatforms env outputDir projectName artifacts ["linux", "mac", "windows"] fs

/-! ### The project index as the specification words it -/

/-- One anchor of the project index followed by its line break:
`<a href="URL#sha256=SHA256">Filename</a><br>`, with the indentation and the newline of
the template. -/
def anchorLine (url sha256 filename : String) : String :=
  "    <a href=\"" ++ url ++ "#sha256=" ++ sha256 ++ "\">" ++ filename ++ "</a><br>\n"

/-- The part of the project index before the anchors (up to and including the `<h1>`
line naming the project). -/
def projectIndexHead (projectName : String) : String :=
  "<!DOCTYPE html>\n<html>\n<head>\n    <title>Links for " ++ rcdataEscaper projectName ++
    "</title>\n</head>\n<body>\n    <h1>Links for " ++ htmlEscaper projectName ++ "</h1>\n"

/-- Concatenation of lines, in order. -/
def concatLines : List String → String
  | [] => ""
  | line :: rest => line ++ concatLines rest

/-- The project index document with the given anchor lines in its body. -/
def projectIndexDocument (projectName : String) (lines : List String) : String :=
  projectIndexHead projectName ++ (concatLines lines ++ "</body>\n</html>\n")

/-- A character that the HTML escapers leave unchanged. -/
def plainTextChar (c : Char) : Bool :=
  !(c = Char.ofNat 0 || c = '"' || c = '&' || c = '\'' || c = '+' || c = '<' || c = '>')

/-- A text that the HTML escapers leave unchanged. -/
def plainText (s : String) : Bool := s.data.all plainTextChar

/-- ASCII letters, digits and `-._~`: left unchanged by every URL escaper. -/
def plainTokenChar (c : Char) : Bool :=
  isAlnum c || c = '-' || c = '.' || c = '_' || c = '~'

/-- A text made of letters, digits and `-._~`, such as a hex digest. -/
def plainToken (s : String) : Bool := s.data.all plainTokenChar

/-- A character that the URL normaliser and the attribute escaper leave unchanged. -/
def plainURLChar (c : Char) : Bool :=
  plainTokenChar c || c = '!' || c = '#' || c = '$' || c = '*' || c = ',' || c = '/' ||
    c = ':' || c = ';' || c = '=' || c = '?' || c = '@' || c = '[' || c = ']'

/-- A URL that passes the scheme filter and holds only characters left unchanged. -/
def plainURL (s : String) : Bool := isSafeURL s && s.data.all plainURLChar

/-! ### The index tree as the specification words it -/

/-- The path `GeneratePyPIStructure` gives the root index of a platform. -/
def rootIndexPath (outputDir platform : String) : String :=
  Join [Join [outputDir, platform, "simple"], "index.html"]

/-- The path `GeneratePyPIStructure` gives the project index of a platform. -/
def projectIndexPath (outputDir platform projectName : String) : String :=
  Join [Join [Join [outputDir, platform, "simple"], projectName], "index.html"]

/-- The root index document of a project. -/
def rootIndexDocument (projectName : String) : String :=
  execute { ProjectName := projectName, Artifacts := [] } rootIndexTemplate

/-- The project index document of a project and the Artifacts of one platform. -/
def projectIndexOf (projectName : String) (artifacts : List Artifact) : String :=
  execute { ProjectName := projectName, Artifacts := artifacts } projectIndexTemplate

/-- The writes of a complete run, in order: per platform the root index, then the
project index. -/
def plannedWrites (outputDir projectName : String) (artifacts : ArtifactMap) :
    List String → List (String × String)
  | [] => []
  | platform :: rest =>
    (rootIndexPath outputDir platform, rootIndexDocument projectName) ::
      (projectIndexPath outputDir platform projectName,
        projectIndexOf projectName (artifacts platform)) ::
      plannedWrites outputDir projectName artifacts rest

/-- The six paths of the index tree, in the order in which they are written. -/
def indexPaths (outputDir projectName : String) : List String :=
  (plannedWrites outputDir projectName ArtifactMap.empty ["linux", "mac", "windows"]).map
    Prod.fst

/-- A sequence of writes carried out on a filesystem. -/
def applyWrites (writes : List (String × String)) (fs : FS) : FS :=
  writes.foldl (fun fs w => fs.write w.1 w.2) fs

/-- The content a sequence of writes leaves in `path`, if it writes there at all. -/
def lastWrite : List (String × String) → String → Option String
  | [], _ => none
  | w :: rest, path =>
    match lastWrite rest path with
    | some content => some content
    | none => if path = w.1 then some w.2 else none

/-- The environment lets every directory creation and every write of a run succeed. -/
def writesSucceed (env : Env) (outputDir projectName : String) : List String → Bool
  | [] => true
  | platform :: rest =>
    (env.mkdirAll (Join [Join [outputDir, platform, "simple"], projectName])).isNone &&
      (env.create (rootIndexPath outputDir platform)).isNone &&
      (env.writeFault (rootIndexPath outputDir platform)).isNone &&
      (env.create (projectIndexPath outputDir platform projectName)).isNone &&
      (env.writeFault (projectIndexPath outputDir platform projectName)).isNone &&
      writesSucceed env outputDir projectName rest

/-! ### The fetch stage seen file by file -/

/-- The per-file fetch as a function of the filename: what `downloadAndHashFile` returns
for it (the result does not depend on the filesystem content). -/
def fetchOutcome (env : Env) (baseURL tempDir file : String) : Outcome Artifact :=
  (downloadAndHashFile env baseURL file tempDir (fun _ => none)).2

/-- The filesystem after `downloadAndHashFile` has been run on `files` in turn. -/
def filesystemAfter (env : Env) (baseURL tempDir : String) (files : List String) (fs : FS) :
    FS :=
  files.foldl (fun fs file => (downloadAndHashFile env baseURL file tempDir fs).1) fs

/-- The three buckets as one sequence of (map key, filename) pairs, in the order in which
`DownloadAndHash` goes through them. -/
def taggedFiles (categorized : CategorizedFiles) : List (String × String) :=
  categorized.Linux.map (fun file => ("linux", file)) ++
    (categorized.Mac.map (fun file => ("mac", file)) ++
      categorized.Windows.map (fun file => ("windows", file)))

/-- The loop of `downloadBucket` over a sequence of (map key, filename) pairs. -/
def downloadTagged (env : Env) (baseURL tempDir : String) :
    List (String × String) → FS → ArtifactMap → FS × Outcome ArtifactMap
  | [], fs, artifacts => (fs, .ok artifacts)
  | (platform, file) :: rest, fs, artifacts =>
    match downloadAndHashFile env baseURL file tempDir fs with
    | (fs1, .ok artifact) =>
      downloadTagged env baseURL tempDir rest fs1
        (artifacts.set platform (artifacts platform ++ [artifact]))
    | (fs1, .error msg) =>
      (fs1, .error ("failed to download " ++ platform ++ " file " ++ file ++ ": " ++ msg))
    | (fs1, .panic msg) => (fs1, .panic msg)

/-! ## `generate.go` -/

/-- Go `convertToArtifacts(categorized downloader.CategorizedFiles, baseURL string)
map[string][]generator.Artifact`. -/
def convertToArtifacts (categorized : CategorizedFiles) (baseURL : String) : ArtifactMap :=
  let artifacts := ArtifactMap.empty
  let artifacts := categorized.Linux.foldl (fun (m : ArtifactMap) file =>
    m.set "linux" (m "linux" ++
      [{ Filename := file, URL := baseURL ++ file, SHA256 := "", Size := 0 }])) artifacts
  let artifacts := categorized.Mac.foldl (fun (m : ArtifactMap) file =>
    m.set "mac" (m "mac" ++
      [{ Filename := file, URL := baseURL ++ file, SHA256 := "", Size := 0 }])) artifacts
  let artifacts := categorized.Windows.foldl (fun (m : ArtifactMap) file =>
    m.set "windows" (m "windows" ++
      [{ Filename := file, URL := baseURL ++ file, SHA256 := "", Size := 0 }])) artifacts
  artifacts

/-! ## Sample data -/

/-- A directory listing with the anchors `../`, `subdir/`, `file.tar.gz`,
`file.tar.gz.sig` and `file.tar.gz.sigstore`. -/
def sampleListingItems : List (String × String) :=
  [("<html>\n<body>\n", "../"), ("../</a>\n", "subdir/"), ("subdir/</a>\n", "file.tar.gz"),
    ("file.tar.gz</a>\n", "file.tar.gz.sig"),
    ("file.tar.gz.sig</a>\n", "file.tar.gz.sigstore")]

/-- The text after the last anchor of the sample listing. -/
def sampleListingTrailer : String := "file.tar.gz.sigstore</a>\n</body>\n</html>\n"

/-- A world whose server answers the listing URL with the sample listing and every other
URL with the four bytes `data`, and whose filesystem accepts every path. -/
def sampleEnv : Env where
  get := fun url =>
    if url = "https://example.org/dist/" then
      HttpResult.response 200 (listingDocument sampleListingItems sampleListingTrailer) none
    else HttpResult.response 200 "data" none
  mkdirAll := fun _ => none
  create := fun _ => none
  writeFault := fun _ => none
  sha256Hex := fun _ => "3a6eb0790f39ac87c94f3856b2dd2c5d110e6811602261a9a923d3bb23adc8b7"

/-- The sample world with a read-only filesystem: every directory creation and every
file creation is refused. -/
def readOnlyEnv : Env :=
  { sampleEnv with
    mkdirAll := fun _ => some "permission denied"
    create := fun _ => some "permission denied" }

/-! ## Theorems -/

/-! ### Classifier -/

theorem categorizeStep_eq (ul : Char → Char) (acc : CategorizedFiles) (file : String) :
    categorizeStep ul acc file =
      ⟨acc.Linux ++ [file].filter (inLinux ul), acc.Mac ++ [file].filter (inMac ul),
        acc.Windows ++ [file].filter (inWindows ul)⟩ := by
  have h : categorizeStep ul acc file =
      if macRule (ToLower ul file) then { acc with Mac := acc.Mac ++ [file] }
      else if windowsRule (ToLower ul file) then { acc with Windows := acc.Windows ++ [file] }
      else if tarballSuffix (ToLower ul file) then
        if !Contains (ToLower ul file) "macos" && !Contains (ToLower ul file) "win" then
          { acc with Linux := acc.Linux ++ [file] }
        else acc
      else if HasSuffix (ToLower ul file) ".tar" || HasSuffix (ToLower ul file) ".bz2" ||
          HasSuffix (ToLower ul file) ".xz" then
        { acc with Linux := acc.Linux ++ [file] }
      else acc := rfl
  rw [h]
  simp only [List.filter_cons, List.filter_nil, inLinux, inMac, inWindows, linuxRule]
  generalize macRule (ToLower ul file) = m
  generalize windowsRule (ToLower ul file) = w
  generalize tarballSuffix (ToLower ul file) = t
  generalize Contains (ToLower ul file) "macos" = c1
  generalize Contains (ToLower ul file) "win" = c2
  generalize (HasSuffix (ToLower ul file) ".tar" || HasSuffix (ToLower ul file) ".bz2" ||
          HasSuffix (ToLower ul file) ".xz") = fb
  cases m <;> cases w <;> cases t <;> cases c1 <;> cases c2 <;> cases fb <;> simp

theorem foldl_categorizeStep (ul : Char → Char) (files : List String)
    (acc : CategorizedFiles) :
    files.foldl (categorizeStep ul) acc =
      ⟨acc.Linux ++ files.filter (inLinux ul), acc.Mac ++ files.filter (inMac ul),
        acc.Windows ++ files.filter (inWindows ul)⟩ := by
  induction files generalizing acc with
  | nil => simp
  | cons f fs ih =>
    rw [List.foldl_cons, ih, categorizeStep_eq]
    simp only [List.append_assoc, ← List.filter_append, List.singleton_append]

theorem CategorizeFiles_eq (ul : Char → Char) (files : List String) :
    CategorizeFiles ul files =
      ⟨files.filter (inLinux ul), files.filter (inMac ul), files.filter (inWindows ul)⟩ := by
  unfold CategorizeFiles
  rw [foldl_categorizeStep]
  simp

theorem inMac_not_inWindows (ul : Char → Char) (f : String) (h : inMac ul f = true) :
    inWindows ul f = false := by
  unfold inMac at h
  simp [inWindows, h]

theorem inMac_not_inLinux (ul : Char → Char) (f : String) (h : inMac ul f = true) :
    inLinux ul f = false := by
  unfold inMac at h
  simp [inLinux, h]

theorem inWindows_not_inLinux (ul : Char → Char) (f : String) (h : inWindows ul f = true) :
    inLinux ul f = false := by
  unfold inWindows at h
  simp only [Bool.and_eq_true] at h
  simp [inLinux, h.2]

theorem filter_lengths_le (ul : Char → Char) (files : List String) :
    (files.filter (inLinux ul)).length + (files.filter (inMac ul)).length +
      (files.filter (inWindows ul)).length ≤ files.length := by
  induction files with
  | nil => simp
  | cons f fs ih =>
    have e1 := inMac_not_inWindows ul f
    have e2 := inMac_not_inLinux ul f
    have e3 := inWindows_not_inLinux ul f
    cases hm : inMac ul f <;> cases hw : inWindows ul f <;> cases hl : inLinux ul f <;>
      simp only [hm, hw, hl, List.filter_cons, List.length_cons, Bool.false_eq_true,
        if_true, if_false] <;>
      simp_all <;> omega

/-- C1: for every list of filenames the buckets returned by `CategorizeFiles` are exactly
the order-preserving filters of the input under the first-match rules (Mac rule; Windows
rule on names not matching Mac; Linux rule on names matching neither), evaluated on the
lower-cased name while the original spelling is stored; a name matching no rule is in no
bucket. -/
theorem CategorizeFiles_buckets_are_filters (ul : Char → Char) (files : List String) :
    (CategorizeFiles ul files).Mac = files.filter (inMac ul) ∧
    (CategorizeFiles ul files).Windows = files.filter (inWindows ul) ∧
    (CategorizeFiles ul files).Linux = files.filter (inLinux ul) ∧
    ∀ f, inMac ul f = false → inWindows ul f = false → inLinux ul f = false →
      f ∉ (CategorizeFiles ul files).Linux ∧ f ∉ (CategorizeFiles ul files).Mac ∧
        f ∉ (CategorizeFiles ul files).Windows := by
  rw [CategorizeFiles_eq]
  refine ⟨rfl, rfl, rfl, ?_⟩
  intro f hm hw hl
  simp [List.mem_filter, hm, hw, hl]

/-- C2: for every list of filenames the three buckets of `CategorizeFiles` are pairwise
disjoint, each bucket is a subsequence of the input, and the bucket lengths sum to at
most the input length. -/
theorem CategorizeFiles_disjoint_sublists (ul : Char → Char) (files : List String) :
    List.Disjoint (CategorizeFiles ul files).Linux (CategorizeFiles ul files).Mac ∧
    List.Disjoint (CategorizeFiles ul files).Linux (CategorizeFiles ul files).Windows ∧
    List.Disjoint (CategorizeFiles ul files).Mac (CategorizeFiles ul files).Windows ∧
    List.Sublist (CategorizeFiles ul files).Linux files ∧
    List.Sublist (CategorizeFiles ul files).Mac files ∧
    List.Sublist (CategorizeFiles ul files).Windows files ∧
    (CategorizeFiles ul files).Linux.length + (CategorizeFiles ul files).Mac.length +
      (CategorizeFiles ul files).Windows.length ≤ files.length := by
  rw [CategorizeFiles_eq]
  refine ⟨?_, ?_, ?_, List.filter_sublist _, List.filter_sublist _, List.filter_sublist _,
    filter_lengths_le ul files⟩
  · intro f h1 h2
    have hm := (List.mem_filter.1 h2).2
    have hl := (List.mem_filter.1 h1).2
    rw [inMac_not_inLinux ul f hm] at hl
    exact Bool.false_ne_true hl
  · intro f h1 h2
    have hw := (List.mem_filter.1 h2).2
    have hl := (List.mem_filter.1 h1).2
    rw [inWindows_not_inLinux ul f hw] at hl
    exact Bool.false_ne_true hl
  · intro f h1 h2
    have hw := (List.mem_filter.1 h2).2
    have hm := (List.mem_filter.1 h1).2
    rw [inMac_not_inWindows ul f hm] at hw
    exact Bool.false_ne_true hw

/-- C3 (as stated, refuted): `Python-3.14.0-macos11.tar.gz` contains `macos` and ends with
`.tar.gz`, yet it is not dropped: `CategorizeFiles` puts it in the Mac bucket. -/
theorem macos_tarball_is_not_dropped :
    Contains (ToLower id "Python-3.14.0-macos11.tar.gz") "macos" = true ∧
    HasSuffix (ToLower id "Python-3.14.0-macos11.tar.gz") ".tar.gz" = true ∧
    ¬ ("Python-3.14.0-macos11.tar.gz" ∉
          (CategorizeFiles id ["Python-3.14.0-macos11.tar.gz"]).Linux ∧
        "Python-3.14.0-macos11.tar.gz" ∉
          (CategorizeFiles id ["Python-3.14.0-macos11.tar.gz"]).Mac ∧
        "Python-3.14.0-macos11.tar.gz" ∉
          (CategorizeFiles id ["Python-3.14.0-macos11.tar.gz"]).Windows) := by
  decide

/-- C3 (amended): a listed filename whose lower-cased form contains `macos` and ends with
`.tar.gz`, `.tar.xz` or `.tgz` is caught by the Mac rule: `CategorizeFiles` puts it in the
Mac bucket and in neither the Linux nor the Windows bucket. -/
theorem macos_tarball_goes_to_mac (ul : Char → Char) (files : List String) (f : String)
    (hmem : f ∈ files)
    (hmacos : Contains (ToLower ul f) "macos" = true)
    (_htar : tarballSuffix (ToLower ul f) = true) :
    f ∈ (CategorizeFiles ul files).Mac ∧ f ∉ (CategorizeFiles ul files).Linux ∧
      f ∉ (CategorizeFiles ul files).Windows := by
  have hm : inMac ul f = true := by simp [inMac, macRule, hmacos]
  rw [CategorizeFiles_eq]
  refine ⟨List.mem_filter.2 ⟨hmem, hm⟩, ?_, ?_⟩
  · intro h
    have hl := (List.mem_filter.1 h).2
    rw [inMac_not_inLinux ul f hm] at hl
    exact Bool.false_ne_true hl
  · intro h
    have hw := (List.mem_filter.1 h).2
    rw [inMac_not_inWindows ul f hm] at hw
    exact Bool.false_ne_true hw

theorem macos_tarball_goes_to_mac_witness :
    "Python-3.14.0-macos11.tar.gz" ∈
        (CategorizeFiles id ["Python-3.14.0.tar.xz", "Python-3.14.0-macos11.tar.gz"]).Mac ∧
      "Python-3.14.0-macos11.tar.gz" ∉
        (CategorizeFiles id ["Python-3.14.0.tar.xz", "Python-3.14.0-macos11.tar.gz"]).Linux ∧
      "Python-3.14.0-macos11.tar.gz" ∉
        (CategorizeFiles id ["Python-3.14.0.tar.xz", "Python-3.14.0-macos11.tar.gz"]).Windows :=
  macos_tarball_goes_to_mac id ["Python-3.14.0.tar.xz", "Python-3.14.0-macos11.tar.gz"]
    "Python-3.14.0-macos11.tar.gz" (by decide) (by decide) (by decide)

/-! ### Listing parser -/

theorem parseStep_pair (files : List String) (whole filename : String) :
    parseStep files [whole, filename] = files ++ [filename].filter keptFilename := by
  have hparent : filename = "../" → HasSuffix filename "/" = true := by
    intro h; subst h; decide
  unfold parseStep keptFilename
  simp only [List.length_cons, List.length_nil, List.getD_cons_succ, List.getD_cons_zero,
    List.filter_cons, List.filter_nil]
  by_cases hp : filename = "../"
  · have hs := hparent hp
    simp only [hs]
    simp [hp]
  · cases HasSuffix filename "/" <;> cases HasSuffix filename ".sig" <;>
      cases HasSuffix filename ".crt" <;> cases HasSuffix filename ".sigstore" <;>
      cases HasSuffix filename ".spdx.json" <;> simp [hp]

theorem foldl_parseStep (values : List (List Char)) (files : List String) :
    (values.map (fun value =>
        [String.mk (anchorOpen ++ value ++ anchorClose), String.mk value])).foldl
        parseStep files =
      files ++ (values.map String.mk).filter keptFilename := by
  induction values generalizing files with
  | nil => simp
  | cons v vs ih =>
    simp only [List.map_cons, List.foldl_cons, parseStep_pair, ih, List.filter_cons,
      List.filter_nil]
    split <;> simp

theorem anchorValues_eq (body : String) :
    anchorValues body = (scanAnchors 0 body.data).map String.mk := by
  simp [anchorValues, FindAllStringSubmatch, Function.comp_def]

theorem stripPrefix_append (lit rest : List Char) : stripPrefix lit (lit ++ rest) = some rest := by
  induction lit with
  | nil => rfl
  | cons p ps ih => simp [stripPrefix, ih]

theorem stripPrefix_none_of_isPrefixOf (lit s : List Char) (h : lit.isPrefixOf s = false) :
    stripPrefix lit s = none := by
  induction lit generalizing s with
  | nil => simp at h
  | cons p ps ih =>
    cases s with
    | nil => rfl
    | cons c cs =>
      simp only [List.isPrefixOf, Bool.and_eq_false_imp, beq_iff_eq] at h
      by_cases hpc : p = c
      · simp [stripPrefix, hpc, ih cs (h hpc)]
      · simp [stripPrefix, hpc]

theorem anchorOpen_not_straddling (sep rest : List Char) (hne : sep ≠ [])
    (h : containsAt anchorOpen sep = false) :
    stripPrefix anchorOpen (sep ++ (anchorOpen ++ rest)) = none := by
  apply stripPrefix_none_of_isPrefixOf
  rcases sep with _ | ⟨c0, _ | ⟨c1, _ | ⟨c2, _ | ⟨c3, _ | ⟨c4, _ | ⟨c5, _ | ⟨c6, _ | ⟨c7,
    _ | ⟨c8, tl⟩⟩⟩⟩⟩⟩⟩⟩⟩
  · exact absurd rfl hne
  all_goals
    simp only [containsAt, Bool.or_eq_false_iff] at h
    simp only [anchorOpen, List.isPrefixOf, List.cons_append, List.nil_append] at h ⊢
  all_goals simp_all
  exact h.1

theorem takeWhile_value (value tail : List Char) (hq : '"' ∉ value) :
    (value ++ '"' :: tail).takeWhile (fun c => c != '"') = value ∧
      (value ++ '"' :: tail).dropWhile (fun c => c != '"') = '"' :: tail := by
  induction value with
  | nil => simp [List.takeWhile, List.dropWhile]
  | cons c cs ih =>
    have hc : c ≠ '"' := fun h => hq (h ▸ List.mem_cons_self _ _)
    have hcs : '"' ∉ cs := fun h => hq (List.mem_cons_of_mem _ h)
    have hb : (c != '"') = true := by simp [hc]
    simp [List.takeWhile_cons, List.dropWhile_cons, hb, ih hcs]

theorem matchAnchor_anchor (value rest : List Char) (hne : value ≠ []) (hq : '"' ∉ value) :
    matchAnchor (anchorOpen ++ (value ++ (anchorClose ++ rest))) = some value := by
  unfold matchAnchor
  rw [stripPrefix_append]
  have h := takeWhile_value value ('>' :: rest) hq
  have hc : anchorClose ++ rest = '"' :: '>' :: rest := rfl
  simp only [hc, h.1, h.2]
  have : value.isEmpty = false := by cases value <;> simp_all
  simp [this, stripPrefix, anchorClose]

theorem scanAnchors_skip (passed rest : List Char) :
    scanAnchors passed.length (passed ++ rest) = scanAnchors 0 rest := by
  induction passed with
  | nil => rfl
  | cons c cs ih =>
    simp only [List.length_cons, List.cons_append, scanAnchors]
    exact ih

theorem stripPrefix_some (lit s rest : List Char) (h : stripPrefix lit s = some rest) :
    s = lit ++ rest := by
  induction lit generalizing s with
  | nil =>
    simp only [stripPrefix, Option.some.injEq] at h
    simp [h]
  | cons p ps ih =>
    cases s with
    | nil => simp [stripPrefix] at h
    | cons c cs =>
      by_cases hpc : p = c
      · simp only [stripPrefix, hpc, if_true] at h
        rw [hpc, ih cs h]
        rfl
      · simp [stripPrefix, hpc] at h

/-- The matcher agrees with the regular expression read as a language: `matchAnchor`
returns `value` exactly when the text starts with `<a href="`, then `value` (non-empty,
no double quote), then `">`. -/
theorem matchAnchor_iff (s value : List Char) :
    matchAnchor s = some value ↔
      ∃ rest, s = anchorOpen ++ (value ++ (anchorClose ++ rest)) ∧ value ≠ [] ∧
        '"' ∉ value := by
  constructor
  · intro h
    unfold matchAnchor at h
    cases h1 : stripPrefix anchorOpen s with
    | none => simp [h1] at h
    | some r =>
      simp only [h1] at h
      by_cases he : (r.takeWhile (fun c => c != '"')).isEmpty = true
      · simp [he] at h
      · simp only [he, Bool.false_eq_true, if_false] at h
        cases h2 : stripPrefix anchorClose (r.dropWhile (fun c => c != '"')) with
        | none => simp [h2] at h
        | some t =>
          simp only [h2, Option.some.injEq] at h
          refine ⟨t, ?_, ?_, ?_⟩
          · rw [stripPrefix_some _ _ _ h1, ← stripPrefix_some _ _ _ h2, ← h,
              List.takeWhile_append_dropWhile]
          · rw [← h]
            intro hnil
            exact he (by rw [hnil]; rfl)
          · rw [← h]
            intro hq
            have := List.mem_takeWhile_imp hq
            simp at this
  · rintro ⟨rest, hs, hne, hq⟩
    rw [hs]
    exact matchAnchor_anchor value rest hne hq

theorem matchAnchor_none (s : List Char) (h : stripPrefix anchorOpen s = none) :
    matchAnchor s = none := by
  simp [matchAnchor, h]

theorem scanAnchors_of_match (c : Char) (cs value : List Char)
    (h : matchAnchor (c :: cs) = some value) :
    scanAnchors 0 (c :: cs) =
      value :: scanAnchors (anchorOpen.length + value.length + anchorClose.length - 1) cs := by
  rw [scanAnchors, h]

theorem scanAnchors_of_no_match (c : Char) (cs : List Char)
    (h : matchAnchor (c :: cs) = none) : scanAnchors 0 (c :: cs) = scanAnchors 0 cs := by
  rw [scanAnchors, h]

theorem scanAnchors_anchor (value rest : List Char) (hne : value ≠ []) (hq : '"' ∉ value) :
    scanAnchors 0 (anchorOpen ++ (value ++ (anchorClose ++ rest))) =
      value :: scanAnchors 0 rest := by
  have hm := matchAnchor_anchor value rest hne hq
  have hopen : anchorOpen ++ (value ++ (anchorClose ++ rest)) =
      '<' :: ((anchorOpen.tail ++ value ++ anchorClose) ++ rest) := by
    simp [anchorOpen]
  rw [hopen] at hm ⊢
  rw [scanAnchors_of_match _ _ _ hm]
  have hlen : anchorOpen.length + value.length + anchorClose.length - 1 =
      (anchorOpen.tail ++ value ++ anchorClose).length := by
    simp [anchorOpen, anchorClose]
    omega
  rw [hlen, scanAnchors_skip]

theorem scanAnchors_text (sep rest : List Char) (h : containsAt anchorOpen sep = false) :
    scanAnchors 0 (sep ++ (anchorOpen ++ rest)) = scanAnchors 0 (anchorOpen ++ rest) := by
  induction sep with
  | nil => rfl
  | cons c cs ih =>
    have hcs : containsAt anchorOpen cs = false := by
      simp only [containsAt, Bool.or_eq_false_iff] at h
      exact h.2
    have hm := matchAnchor_none _
      (anchorOpen_not_straddling (c :: cs) rest (List.cons_ne_nil _ _) h)
    rw [List.cons_append] at hm ⊢
    rw [scanAnchors_of_no_match _ _ hm]
    exact ih hcs

theorem scanAnchors_trailer (trailer : List Char)
    (h : containsAt anchorOpen trailer = false) : scanAnchors 0 trailer = [] := by
  induction trailer with
  | nil => rfl
  | cons c cs ih =>
    simp only [containsAt, Bool.or_eq_false_iff] at h
    have hm := matchAnchor_none _ (stripPrefix_none_of_isPrefixOf _ _ h.1)
    rw [scanAnchors_of_no_match _ _ hm]
    exact ih h.2

theorem anchorValues_listingDocument (items : List (String × String)) (trailer : String)
    (hwf : wellFormedListing items trailer) :
    anchorValues (listingDocument items trailer) = items.map Prod.snd := by
  rw [anchorValues_eq]
  induction items with
  | nil =>
    simp only [listingDocument, List.foldr_nil, List.map_nil]
    rw [scanAnchors_trailer _ hwf.2]
    rfl
  | cons item rest ih =>
    have hitem := hwf.1 item (List.mem_cons_self _ _)
    have hrest : wellFormedListing rest trailer :=
      ⟨fun i hi => hwf.1 i (List.mem_cons_of_mem _ hi), hwf.2⟩
    have hdoc : (listingDocument (item :: rest) trailer).data =
        item.1.data ++ (anchorOpen ++ (item.2.data ++
          (anchorClose ++ (listingDocument rest trailer).data))) := by
      simp only [listingDocument, List.foldr_cons, String.data_append, List.append_assoc]
      rfl
    have hne : item.2.data ≠ [] := by
      intro h
      apply hitem.2.1
      exact String.ext h
    rw [hdoc, scanAnchors_text _ _ hitem.1, scanAnchors_anchor _ _ hne hitem.2.2]
    simp only [List.map_cons, ih hrest]

/-- C4: when the listing is fetched successfully, the filenames returned by
`ParseDirectoryListing` are exactly the VALUEs of the document's `<a href="VALUE">`
anchors, in document order, that end neither with `/` nor with `.sig`, `.crt`,
`.sigstore` or `.spdx.json`; and for a document written as text chunks around such
anchors (VALUE non-empty, no double quote) those VALUEs are the anchors' VALUEs, in
order. -/
theorem ParseDirectoryListing_returns_kept_anchor_values (env : Env)
    (url body : String) (hget : env.get url = HttpResult.response 200 body none) :
    ParseDirectoryListing env url = Except.ok ((anchorValues body).filter keptFilename) ∧
    ∀ items trailer, body = listingDocument items trailer → wellFormedListing items trailer →
      ParseDirectoryListing env url =
        Except.ok ((items.map Prod.snd).filter keptFilename) := by
  have hmain : ParseDirectoryListing env url =
      Except.ok ((anchorValues body).filter keptFilename) := by
    unfold ParseDirectoryListing
    rw [hget]
    simp only [ne_eq, not_true_eq_false, if_false]
    rw [anchorValues_eq]
    unfold FindAllStringSubmatch
    rw [foldl_parseStep]
    simp
  refine ⟨hmain, ?_⟩
  intro items trailer hbody hwf
  rw [hmain, hbody, anchorValues_listingDocument items trailer hwf]

set_option maxRecDepth 8000 in
theorem ParseDirectoryListing_returns_kept_anchor_values_witness :
    ParseDirectoryListing sampleEnv "https://example.org/dist/" =
      Except.ok ["file.tar.gz"] :=
  ((ParseDirectoryListing_returns_kept_anchor_values sampleEnv "https://example.org/dist/"
    (listingDocument sampleListingItems sampleListingTrailer) (by decide)).2
    sampleListingItems sampleListingTrailer rfl
    (by unfold wellFormedListing; decide)).trans (by decide)

/-! ### URL construction -/

theorem hasSuffix_slash_iff (s : String) :
    HasSuffix s "/" = true ↔ s.data.getLast? = some '/' := by
  unfold HasSuffix
  rw [List.isSuffixOf_iff_suffix]
  show ['/'] <:+ s.data ↔ _
  rcases List.eq_nil_or_concat s.data with h | ⟨l, a, h⟩
  · rw [h]; simp
  · rw [h, List.concat_eq_append]
    constructor
    · rintro ⟨t, ht⟩
      have hlast := congrArg List.getLast? ht
      simp only [List.append_assoc, List.getLast?_append, List.getLast?_singleton,
        Option.or] at hlast
      simpa using hlast.symm
    · intro hg
      simp only [List.getLast?_append, List.getLast?_singleton, Option.or,
        Option.some.injEq] at hg
      subst hg
      exact List.suffix_append l ['/']

theorem downloadURL_eq (baseURL filename : String) (hne : baseURL ≠ "") :
    downloadURL baseURL filename =
      some (if HasSuffix baseURL "/" = true ∨ IsAbs baseURL = true then baseURL ++ filename
        else baseURL ++ "/" ++ filename) := by
  unfold downloadURL
  by_cases habs : IsAbs baseURL = true
  · simp [habs]
  · simp only [habs, Bool.false_eq_true, if_false, or_false]
    cases hl : baseURL.data.getLast? with
    | none =>
      exfalso
      apply hne
      apply String.ext
      simpa using hl
    | some last =>
      have hiff : HasSuffix baseURL "/" = true ↔ last = '/' := by
        rw [hasSuffix_slash_iff, hl]
        simp
      by_cases hs : last = '/'
      · simp [hs, hiff.2 hs]
      · have hns : ¬ HasSuffix baseURL "/" = true := fun h => hs (hiff.1 h)
        simp [hs, hns]

theorem downloadAndHashFile_ok (env : Env) (baseURL filename tempDir : String) (fs : FS)
    (artifact : Artifact)
    (h : (downloadAndHashFile env baseURL filename tempDir fs).2 = Outcome.ok artifact) :
    downloadURL baseURL filename = some artifact.URL ∧ artifact.Filename = filename ∧
      ∃ body, env.get artifact.URL = HttpResult.response 200 body none := by
  unfold downloadAndHashFile at h
  cases hu : downloadURL baseURL filename with
  | none => simp [hu] at h
  | some url =>
    simp only [hu] at h
    cases hg : env.get url with
    | transportError msg => simp [hg] at h
    | response status body readErr =>
      simp only [hg] at h
      by_cases hs : status = 200
      · subst hs
        simp only [ne_eq, not_true_eq_false, if_false] at h
        cases hc : env.create (Join [tempDir, filename]) with
        | some msg => simp [hc] at h
        | none =>
          simp only [hc] at h
          cases readErr with
          | some msg => simp at h
          | none =>
            simp only [Outcome.ok.injEq] at h
            subst h
            exact ⟨rfl, rfl, body, hg⟩
      · simp [hs] at h

/-- C5 (as stated, refuted): for the base `/mirror`, which does not end with `/`, the URL
that `downloadAndHashFile` requests is `/mirrorfile.tar.gz`, not `/mirror/file.tar.gz`. -/
theorem absolute_base_gets_no_separator :
    HasSuffix "/mirror" "/" = false ∧
    downloadURL "/mirror" "file.tar.gz" = some "/mirrorfile.tar.gz" ∧
    downloadURL "/mirror" "file.tar.gz" ≠ some ("/mirror" ++ "/" ++ "file.tar.gz") := by
  decide

/-- C5 (amended): for every non-empty baseURL and every filename, the URL that
`downloadAndHashFile` requests and records in the Artifact is `baseURL + filename` when
baseURL ends with `/` or is an absolute path (begins with `/`), and
`baseURL + "/" + filename` otherwise; nothing else is changed. -/
theorem downloadAndHashFile_url (env : Env) (baseURL filename tempDir : String) (fs : FS)
    (hne : baseURL ≠ "") :
    downloadURL baseURL filename =
      some (if HasSuffix baseURL "/" = true ∨ IsAbs baseURL = true then baseURL ++ filename
        else baseURL ++ "/" ++ filename) ∧
    ∀ artifact,
      (downloadAndHashFile env baseURL filename tempDir fs).2 = Outcome.ok artifact →
      artifact.URL =
          (if HasSuffix baseURL "/" = true ∨ IsAbs baseURL = true then baseURL ++ filename
            else baseURL ++ "/" ++ filename) ∧
        ∃ body, env.get artifact.URL = HttpResult.response 200 body none := by
  refine ⟨downloadURL_eq baseURL filename hne, ?_⟩
  intro artifact h
  have hok := downloadAndHashFile_ok env baseURL filename tempDir fs artifact h
  have hu := downloadURL_eq baseURL filename hne
  rw [hok.1, Option.some.injEq] at hu
  exact ⟨hu, hok.2.2⟩

theorem downloadAndHashFile_url_witness :
    downloadURL "https://www.python.org/ftp/python/3.14.0" "Python-3.14.0.tar.xz" =
      some "https://www.python.org/ftp/python/3.14.0/Python-3.14.0.tar.xz" :=
  (downloadAndHashFile_url sampleEnv "https://www.python.org/ftp/python/3.14.0"
    "Python-3.14.0.tar.xz" "releases/temp-downloads" (fun _ => none) (by decide)).1.trans
    (by decide)

/-! ### Skip-download mode -/

theorem foldl_set_append (key : String) (mk : String → Artifact) (files : List String)
    (m : ArtifactMap) :
    files.foldl (fun (m : ArtifactMap) file => m.set key (m key ++ [mk file])) m =
      m.set key (m key ++ files.map mk) := by
  induction files generalizing m with
  | nil =>
    funext k
    by_cases hk : k = key <;> simp [ArtifactMap.set, hk]
  | cons f fs ih =>
    rw [List.foldl_cons, ih]
    funext k
    by_cases hk : k = key <;> simp [ArtifactMap.set, hk]

theorem convertToArtifacts_eq (categorized : CategorizedFiles) (baseURL : String) :
    convertToArtifacts categorized baseURL =
      ((ArtifactMap.empty.set "linux" (categorized.Linux.map
          (fun file => { Filename := file, URL := baseURL ++ file, SHA256 := "", Size := 0 }))).set
        "mac" (categorized.Mac.map
          (fun file => { Filename := file, URL := baseURL ++ file, SHA256 := "", Size := 0 }))).set
        "windows" (categorized.Windows.map
          (fun file => { Filename := file, URL := baseURL ++ file, SHA256 := "", Size := 0 })) := by
  unfold convertToArtifacts
  simp only [foldl_set_append]
  funext k
  by_cases h1 : k = "windows"
  · subst h1; simp [ArtifactMap.set, ArtifactMap.empty]
  · by_cases h2 : k = "mac"
    · subst h2; simp [ArtifactMap.set, ArtifactMap.empty]
    · by_cases h3 : k = "linux"
      · subst h3; simp [ArtifactMap.set, ArtifactMap.empty]
      · simp [ArtifactMap.set, ArtifactMap.empty, h1, h2, h3]

/-- C8: in skip-download mode `convertToArtifacts` returns, for each of the platforms
`linux`, `mac` and `windows`, one Artifact per filename of the platform's bucket, in the
same order, with that Filename, URL = baseURL followed directly by the filename, an empty
SHA256 and Size 0; an empty bucket gives an empty list. -/
theorem convertToArtifacts_per_platform (categorized : CategorizedFiles) (baseURL : String) :
    convertToArtifacts categorized baseURL "linux" =
      categorized.Linux.map
        (fun file => { Filename := file, URL := baseURL ++ file, SHA256 := "", Size := 0 }) ∧
    convertToArtifacts categorized baseURL "mac" =
      categorized.Mac.map
        (fun file => { Filename := file, URL := baseURL ++ file, SHA256 := "", Size := 0 }) ∧
    convertToArtifacts categorized baseURL "windows" =
      categorized.Windows.map
        (fun file => { Filename := file, URL := baseURL ++ file, SHA256 := "", Size := 0 }) := by
  rw [convertToArtifacts_eq]
  refine ⟨?_, ?_, ?_⟩ <;> simp [ArtifactMap.set, ArtifactMap.empty]

theorem convertToArtifacts_mem (categorized : CategorizedFiles) (baseURL platform : String)
    (artifact : Artifact) (h : artifact ∈ convertToArtifacts categorized baseURL platform) :
    artifact.URL = baseURL ++ artifact.Filename := by
  rw [convertToArtifacts_eq] at h
  simp only [ArtifactMap.set, ArtifactMap.empty] at h
  split at h
  · obtain ⟨f, _, hf⟩ := List.mem_map.1 h
    subst hf; rfl
  · split at h
    · obtain ⟨f, _, hf⟩ := List.mem_map.1 h
      subst hf; rfl
    · split at h
      · obtain ⟨f, _, hf⟩ := List.mem_map.1 h
        subst hf; rfl
      · simp at h

theorem append_ne_append_slash (baseURL filename : String) :
    baseURL ++ filename ≠ baseURL ++ "/" ++ filename := by
  intro h
  have hd := congrArg String.length h
  simp only [String.length_append] at hd
  have hslash : ("/" : String).length = 1 := rfl
  omega

/-- C10: for every non-empty baseURL, the URL of an Artifact recorded by
`convertToArtifacts` equals the URL `downloadAndHashFile` builds for the same filename
if and only if baseURL ends with `/` or begins with `/`; for every other non-empty
baseURL the recorded URL is baseURL followed directly by the filename while the download
URL has a `/` between them. -/
theorem skip_download_url_agrees_iff (categorized : CategorizedFiles)
    (baseURL platform : String) (artifact : Artifact) (hne : baseURL ≠ "")
    (hmem : artifact ∈ convertToArtifacts categorized baseURL platform) :
    (downloadURL baseURL artifact.Filename = some artifact.URL ↔
      (HasSuffix baseURL "/" = true ∨ HasPrefix baseURL "/" = true)) ∧
    (¬ (HasSuffix baseURL "/" = true ∨ HasPrefix baseURL "/" = true) →
      artifact.URL = baseURL ++ artifact.Filename ∧
        downloadURL baseURL artifact.Filename =
          some (baseURL ++ "/" ++ artifact.Filename)) := by
  have hurl := convertToArtifacts_mem categorized baseURL platform artifact hmem
  have hd := downloadURL_eq baseURL artifact.Filename hne
  unfold IsAbs at hd
  by_cases hc : HasSuffix baseURL "/" = true ∨ HasPrefix baseURL "/" = true
  · rw [if_pos hc] at hd
    exact ⟨⟨fun _ => hc, fun _ => by rw [hd, hurl]⟩, fun hn => absurd hc hn⟩
  · rw [if_neg hc] at hd
    refine ⟨⟨fun h => ?_, fun h => absurd h hc⟩, fun _ => ⟨hurl, hd⟩⟩
    rw [hd, hurl, Option.some.injEq] at h
    exact absurd h.symm (append_ne_append_slash baseURL artifact.Filename)

theorem skip_download_url_agrees_iff_witness :
    downloadURL "https://www.python.org/ftp/python/3.14.0/" "Python-3.14.0.tar.xz" =
        some "https://www.python.org/ftp/python/3.14.0/Python-3.14.0.tar.xz" ∧
      downloadURL "https://www.python.org/ftp/python/3.14.0" "Python-3.14.0.tar.xz" =
        some ("https://www.python.org/ftp/python/3.14.0" ++ "/" ++ "Python-3.14.0.tar.xz") :=
  ⟨(skip_download_url_agrees_iff ⟨["Python-3.14.0.tar.xz"], [], []⟩
      "https://www.python.org/ftp/python/3.14.0/" "linux"
      { Filename := "Python-3.14.0.tar.xz",
        URL := "https://www.python.org/ftp/python/3.14.0/Python-3.14.0.tar.xz",
        SHA256 := "", Size := 0 }
      (by decide) (by decide)).1.2 (Or.inl (by decide)),
    ((skip_download_url_agrees_iff ⟨[], [], ["Python-3.14.0.tar.xz"]⟩
      "https://www.python.org/ftp/python/3.14.0" "windows"
      { Filename := "Python-3.14.0.tar.xz",
        URL := "https://www.python.org/ftp/python/3.14.0Python-3.14.0.tar.xz",
        SHA256 := "", Size := 0 }
      (by decide) (by decide)).2 (by decide)).2⟩

/-! ### Fetch stage -/

theorem downloadAndHashFile_outcome (env : Env) (baseURL filename tempDir : String)
    (fs : FS) :
    (downloadAndHashFile env baseURL filename tempDir fs).2 =
      fetchOutcome env baseURL tempDir filename := by
  unfold fetchOutcome downloadAndHashFile
  cases downloadURL baseURL filename with
  | none => rfl
  | some url =>
    simp only
    cases env.get url with
    | transportError msg => rfl
    | response status body readErr =>
      simp only
      by_cases hs : status = 200
      · simp only [hs, ne_eq, not_true_eq_false, if_false]
        cases env.create (Join [tempDir, filename]) with
        | some msg => rfl
        | none => cases readErr <;> rfl
      · simp only [ne_eq, hs, not_false_eq_true, if_true]

theorem fetchOutcome_cases (env : Env) (baseURL tempDir filename : String)
    (hne : baseURL ≠ "") :
    (∃ artifact, fetchOutcome env baseURL tempDir filename = Outcome.ok artifact ∧
        artifact.Filename = filename) ∨
      ∃ msg, fetchOutcome env baseURL tempDir filename = Outcome.error msg := by
  unfold fetchOutcome downloadAndHashFile
  rw [downloadURL_eq baseURL filename hne]
  simp only
  cases env.get _ with
  | transportError msg => exact Or.inr ⟨_, rfl⟩
  | response status body readErr =>
    simp only
    by_cases hs : status = 200
    · simp only [hs, ne_eq, not_true_eq_false, if_false]
      cases env.create (Join [tempDir, filename]) with
      | some msg => exact Or.inr ⟨_, rfl⟩
      | none =>
        cases readErr with
        | some msg => exact Or.inr ⟨_, rfl⟩
        | none => exact Or.inl ⟨_, rfl, rfl⟩
    · simp only [ne_eq, hs, not_false_eq_true, if_true]
      exact Or.inr ⟨_, rfl⟩

theorem downloadBucket_eq_tagged (env : Env) (baseURL tempDir platform : String)
    (files : List String) (fs : FS) (artifacts : ArtifactMap) :
    downloadBucket env baseURL tempDir platform files fs artifacts =
      downloadTagged env baseURL tempDir (files.map (fun file => (platform, file)))
        fs artifacts := by
  induction files generalizing fs artifacts with
  | nil => rfl
  | cons f rest ih =>
    simp only [downloadBucket, List.map_cons, downloadTagged]
    rcases h : downloadAndHashFile env baseURL f tempDir fs with ⟨fs1, _ | _ | _⟩
    · simp only [ih]
    · rfl
    · rfl

theorem downloadTagged_append (env : Env) (baseURL tempDir : String)
    (xs ys : List (String × String)) (fs : FS) (artifacts : ArtifactMap) :
    downloadTagged env baseURL tempDir (xs ++ ys) fs artifacts =
      match downloadTagged env baseURL tempDir xs fs artifacts with
      | (fs1, Outcome.ok artifacts1) => downloadTagged env baseURL tempDir ys fs1 artifacts1
      | failed => failed := by
  induction xs generalizing fs artifacts with
  | nil => rfl
  | cons x rest ih =>
    obtain ⟨platform, file⟩ := x
    simp only [List.cons_append, downloadTagged]
    rcases h : downloadAndHashFile env baseURL file tempDir fs with ⟨fs1, _ | _ | _⟩
    · exact ih _ _
    · rfl
    · rfl

theorem DownloadAndHash_eq_tagged (env : Env) (baseURL : String)
    (categorized : CategorizedFiles) (outputDir : String) (fs : FS)
    (hdir : env.mkdirAll (Join [outputDir, "temp-downloads"]) = none) :
    DownloadAndHash env baseURL categorized outputDir fs =
      downloadTagged env baseURL (Join [outputDir, "temp-downloads"])
        (taggedFiles categorized) fs ArtifactMap.empty := by
  unfold DownloadAndHash taggedFiles
  simp only [hdir, downloadBucket_eq_tagged, downloadTagged_append]

theorem downloadAndHashFile_pair (env : Env) (baseURL filename tempDir : String) (fs : FS) :
    downloadAndHashFile env baseURL filename tempDir fs =
      (filesystemAfter env baseURL tempDir [filename] fs,
        fetchOutcome env baseURL tempDir filename) := by
  rw [← downloadAndHashFile_outcome env baseURL filename tempDir fs]
  rfl

theorem downloadTagged_first_failure (env : Env) (baseURL tempDir : String)
    (pre post : List (String × String)) (platform file msg : String) (fs : FS)
    (artifacts : ArtifactMap)
    (hpre : ∀ x ∈ pre, ∃ artifact, fetchOutcome env baseURL tempDir x.2 = Outcome.ok artifact)
    (hfail : fetchOutcome env baseURL tempDir file = Outcome.error msg) :
    downloadTagged env baseURL tempDir (pre ++ (platform, file) :: post) fs artifacts =
      (filesystemAfter env baseURL tempDir (pre.map Prod.snd ++ [file]) fs,
        Outcome.error
          ("failed to download " ++ platform ++ " file " ++ file ++ ": " ++ msg)) := by
  induction pre generalizing fs artifacts with
  | nil =>
    simp only [List.nil_append, downloadTagged, List.map_nil]
    rw [downloadAndHashFile_pair, hfail]
  | cons x rest ih =>
    obtain ⟨p, f⟩ := x
    obtain ⟨a, ha⟩ := hpre (p, f) (List.mem_cons_self _ _)
    simp only [List.cons_append, downloadTagged, List.map_cons]
    rw [downloadAndHashFile_pair, ha]
    simp only
    exact (ih _ _ (fun y hy => hpre y (List.mem_cons_of_mem _ hy))).trans rfl

theorem downloadTagged_all_ok (env : Env) (baseURL tempDir : String)
    (xs : List (String × String)) (fs : FS) (artifacts : ArtifactMap)
    (hok : ∀ x ∈ xs, ∃ artifact,
      fetchOutcome env baseURL tempDir x.2 = Outcome.ok artifact ∧ artifact.Filename = x.2) :
    ∃ result, downloadTagged env baseURL tempDir xs fs artifacts =
        (filesystemAfter env baseURL tempDir (xs.map Prod.snd) fs, Outcome.ok result) ∧
      ∀ key, (result key).map Artifact.Filename =
        (artifacts key).map Artifact.Filename ++
          (xs.filter (fun x => x.1 = key)).map Prod.snd := by
  induction xs generalizing fs artifacts with
  | nil => exact ⟨artifacts, rfl, fun key => by simp⟩
  | cons x rest ih =>
    obtain ⟨p, f⟩ := x
    obtain ⟨a, ha, hname⟩ := hok (p, f) (List.mem_cons_self _ _)
    obtain ⟨result, hres, hkeys⟩ :=
      ih (filesystemAfter env baseURL tempDir [f] fs)
        (artifacts.set p (artifacts p ++ [a]))
        (fun y hy => hok y (List.mem_cons_of_mem _ hy))
    refine ⟨result, ?_, ?_⟩
    · simp only [downloadTagged, List.map_cons]
      rw [downloadAndHashFile_pair, ha]
      simp only
      rw [hres]
      rfl
    · intro key
      rw [hkeys key]
      simp only at hname
      by_cases hk : key = p
      · subst hk
        simp [ArtifactMap.set, List.filter_cons, hname]
      · have hk2 : ¬ p = key := fun h => hk h.symm
        simp [ArtifactMap.set, List.filter_cons, hk, hk2]

theorem all_or_first_failure {α : Type} (good : α → Prop) (l : List α) :
    (∀ x ∈ l, good x) ∨
      ∃ pre x post, l = pre ++ x :: post ∧ (∀ y ∈ pre, good y) ∧ ¬ good x := by
  induction l with
  | nil => exact Or.inl (fun x hx => absurd hx (List.not_mem_nil x))
  | cons a rest ih =>
    by_cases ha : good a
    · rcases ih with hall | ⟨pre, x, post, hl, hpre, hx⟩
      · left
        intro x hx
        rcases List.mem_cons.1 hx with h | h
        · exact h ▸ ha
        · exact hall x h
      · right
        refine ⟨a :: pre, x, post, by rw [hl]; rfl, ?_, hx⟩
        intro y hy
        rcases List.mem_cons.1 hy with h | h
        · exact h ▸ ha
        · exact hpre y h
    · exact Or.inr ⟨[], a, rest, rfl, fun y hy => absurd hy (List.not_mem_nil y), ha⟩

theorem taggedFiles_map_snd (categorized : CategorizedFiles) :
    (taggedFiles categorized).map Prod.snd =
      categorized.Linux ++ categorized.Mac ++ categorized.Windows := by
  simp [taggedFiles, Function.comp_def]

theorem taggedFiles_tag (categorized : CategorizedFiles) (x : String × String)
    (h : x ∈ taggedFiles categorized) : x.1 ∈ ["linux", "mac", "windows"] := by
  simp only [taggedFiles, List.mem_append, List.mem_map] at h
  rcases h with ⟨f, _, rfl⟩ | ⟨f, _, rfl⟩ | ⟨f, _, rfl⟩ <;> simp

theorem taggedFiles_filter (categorized : CategorizedFiles) :
    ((taggedFiles categorized).filter (fun x => x.1 = "linux")).map Prod.snd =
        categorized.Linux ∧
      ((taggedFiles categorized).filter (fun x => x.1 = "mac")).map Prod.snd =
        categorized.Mac ∧
      ((taggedFiles categorized).filter (fun x => x.1 = "windows")).map Prod.snd =
        categorized.Windows := by
  simp [taggedFiles, List.filter_append, List.filter_map, Function.comp_def]

/-- C7 (as stated, refuted): on a read-only filesystem and with all three buckets empty,
`DownloadAndHash` returns an error (the staging directory cannot be created) although
there is no filename whose fetch fails. -/
theorem DownloadAndHash_fails_without_fetch_failure :
    (DownloadAndHash readOnlyEnv "https://example.org/dist/" ⟨[], [], []⟩ "releases"
        (fun _ => none)).2 =
      Outcome.error "failed to create temp directory: permission denied" ∧
    ¬ ∃ f ∈ (CategorizedFiles.mk [] [] []).Linux ++ (CategorizedFiles.mk [] [] []).Mac ++
          (CategorizedFiles.mk [] [] []).Windows,
        ∃ msg, fetchOutcome readOnlyEnv "https://example.org/dist/"
          (Join ["releases", "temp-downloads"]) f = Outcome.error msg :=
  ⟨rfl, fun ⟨f, hf, _⟩ => absurd hf (List.not_mem_nil f)⟩

/-- C7 (amended): for a non-empty baseURL and a staging directory that can be created,
`DownloadAndHash` returns an error and no artifact map if and only if the fetch of at
least one filename of the Linux, Mac or Windows bucket fails; the files are tried in the
order Linux, Mac, Windows and the first failure stops the stage (its error is returned
and no later file is fetched); otherwise the returned list of each platform has the
filenames of the platform's bucket, in order, as the Filenames of its Artifacts. -/
theorem DownloadAndHash_all_or_nothing (env : Env) (baseURL : String)
    (categorized : CategorizedFiles) (outputDir : String) (fs : FS)
    (hbase : baseURL ≠ "")
    (hdir : env.mkdirAll (Join [outputDir, "temp-downloads"]) = none) :
    ((∃ msg, (DownloadAndHash env baseURL categorized outputDir fs).2 = Outcome.error msg) ↔
      ∃ f ∈ categorized.Linux ++ categorized.Mac ++ categorized.Windows, ∃ msg,
        fetchOutcome env baseURL (Join [outputDir, "temp-downloads"]) f =
          Outcome.error msg) ∧
    (∀ pre f post msg,
      categorized.Linux ++ categorized.Mac ++ categorized.Windows = pre ++ f :: post →
      (∀ g ∈ pre, ∃ artifact,
        fetchOutcome env baseURL (Join [outputDir, "temp-downloads"]) g =
          Outcome.ok artifact) →
      fetchOutcome env baseURL (Join [outputDir, "temp-downloads"]) f = Outcome.error msg →
      (∃ platform ∈ ["linux", "mac", "windows"],
        (DownloadAndHash env baseURL categorized outputDir fs).2 =
          Outcome.error
            ("failed to download " ++ platform ++ " file " ++ f ++ ": " ++ msg)) ∧
        (DownloadAndHash env baseURL categorized outputDir fs).1 =
          filesystemAfter env baseURL (Join [outputDir, "temp-downloads"]) (pre ++ [f]) fs) ∧
    ((¬ ∃ f ∈ categorized.Linux ++ categorized.Mac ++ categorized.Windows, ∃ msg,
        fetchOutcome env baseURL (Join [outputDir, "temp-downloads"]) f =
          Outcome.error msg) →
      ∃ result, (DownloadAndHash env baseURL categorized outputDir fs).2 = Outcome.ok result ∧
        (result "linux").map Artifact.Filename = categorized.Linux ∧
        (result "mac").map Artifact.Filename = categorized.Mac ∧
        (result "windows").map Artifact.Filename = categorized.Windows) := by
  have hD := DownloadAndHash_eq_tagged env baseURL categorized outputDir fs hdir
  have hfiles := taggedFiles_map_snd categorized
  generalize Join [outputDir, "temp-downloads"] = tempDir at hD ⊢
  -- every fetch that does not fail yields an Artifact carrying the filename
  have hcases := fun f => fetchOutcome_cases env baseURL tempDir f hbase
  have hnamed : ∀ f, (¬ ∃ msg, fetchOutcome env baseURL tempDir f = Outcome.error msg) →
      ∃ artifact, fetchOutcome env baseURL tempDir f = Outcome.ok artifact ∧
        artifact.Filename = f := by
    intro f hf
    rcases hcases f with h | h
    · exact h
    · exact absurd h hf
  have hmem : ∀ x ∈ taggedFiles categorized,
      x.2 ∈ categorized.Linux ++ categorized.Mac ++ categorized.Windows := by
    intro x hx
    rw [← hfiles]
    exact List.mem_map_of_mem _ hx
  -- the stage succeeds when no fetch fails
  have hsuccess : (¬ ∃ f ∈ categorized.Linux ++ categorized.Mac ++ categorized.Windows,
      ∃ msg, fetchOutcome env baseURL tempDir f = Outcome.error msg) →
      ∃ result, (DownloadAndHash env baseURL categorized outputDir fs).2 = Outcome.ok result ∧
        (result "linux").map Artifact.Filename = categorized.Linux ∧
        (result "mac").map Artifact.Filename = categorized.Mac ∧
        (result "windows").map Artifact.Filename = categorized.Windows := by
    intro hnone
    obtain ⟨result, hres, hkeys⟩ :=
      downloadTagged_all_ok env baseURL tempDir (taggedFiles categorized) fs
        ArtifactMap.empty
        (fun x hx => hnamed x.2 (fun ⟨msg, hmsg⟩ => hnone ⟨x.2, hmem x hx, msg, hmsg⟩))
    have hf := taggedFiles_filter categorized
    refine ⟨result, by rw [hD, hres], ?_, ?_, ?_⟩
    · rw [hkeys "linux", hf.1]; rfl
    · rw [hkeys "mac", hf.2.1]; rfl
    · rw [hkeys "windows", hf.2.2]; rfl
  -- the stage stops at the first failing file
  have hfirst : ∀ pre f post msg,
      categorized.Linux ++ categorized.Mac ++ categorized.Windows = pre ++ f :: post →
      (∀ g ∈ pre, ∃ artifact, fetchOutcome env baseURL tempDir g = Outcome.ok artifact) →
      fetchOutcome env baseURL tempDir f = Outcome.error msg →
      (∃ platform ∈ ["linux", "mac", "windows"],
        (DownloadAndHash env baseURL categorized outputDir fs).2 =
          Outcome.error
            ("failed to download " ++ platform ++ " file " ++ f ++ ": " ++ msg)) ∧
        (DownloadAndHash env baseURL categorized outputDir fs).1 =
          filesystemAfter env baseURL tempDir (pre ++ [f]) fs := by
    intro pre f post msg hsplit hpre hfail
    rw [← hfiles] at hsplit
    obtain ⟨t1, t2, ht, ht1, ht2⟩ := List.map_eq_append_iff.1 hsplit
    obtain ⟨x, t3, hx, hxf, _⟩ := List.map_eq_cons_iff.1 ht2
    obtain ⟨platform, file⟩ := x
    simp only at hxf
    subst hxf
    have hrun := downloadTagged_first_failure env baseURL tempDir t1 t3 platform file msg fs
      ArtifactMap.empty
      (fun y hy => hpre y.2 (ht1 ▸ List.mem_map_of_mem _ hy)) hfail
    have htag : platform ∈ ["linux", "mac", "windows"] :=
      taggedFiles_tag categorized (platform, file) (by rw [ht, hx]; simp)
    rw [hD, ht, hx, hrun, ht1]
    exact ⟨⟨platform, htag, rfl⟩, rfl⟩
  refine ⟨⟨?_, ?_⟩, hfirst, hsuccess⟩
  · rintro ⟨msg, herr⟩
    by_contra hnone
    obtain ⟨result, hres, _⟩ := hsuccess hnone
    rw [hres] at herr
    exact Outcome.noConfusion herr
  · rintro ⟨f, hf, msg, hmsg⟩
    rcases all_or_first_failure
        (fun g => ∃ artifact, fetchOutcome env baseURL tempDir g = Outcome.ok artifact)
        (categorized.Linux ++ categorized.Mac ++ categorized.Windows)
      with hall | ⟨pre, g, post, hsplit, hpre, hg⟩
    · obtain ⟨artifact, ha⟩ := hall f hf
      rw [ha] at hmsg
      exact Outcome.noConfusion hmsg
    · rcases hcases g with ⟨artifact, ha, _⟩ | ⟨msg2, hmsg2⟩
      · exact absurd ⟨artifact, ha⟩ hg
      · obtain ⟨⟨platform, _, hrun⟩, _⟩ := hfirst pre g post msg2 hsplit hpre hmsg2
        exact ⟨_, hrun⟩

theorem DownloadAndHash_all_or_nothing_witness :
    ∃ result,
      (DownloadAndHash sampleEnv "https://example.org/dist/"
        ⟨["file.tar.gz"], ["python.pkg"], ["python.exe"]⟩ "releases" (fun _ => none)).2 =
        Outcome.ok result ∧
      (result "linux").map Artifact.Filename = ["file.tar.gz"] ∧
      (result "mac").map Artifact.Filename = ["python.pkg"] ∧
      (result "windows").map Artifact.Filename = ["python.exe"] :=
  (DownloadAndHash_all_or_nothing sampleEnv "https://example.org/dist/"
    ⟨["file.tar.gz"], ["python.pkg"], ["python.exe"]⟩ "releases" (fun _ => none)
    (by decide) rfl).2.2
    (by
      rintro ⟨f, hf, msg, hmsg⟩
      simp only [List.cons_append, List.nil_append, List.mem_cons, List.mem_singleton,
        List.not_mem_nil, or_false] at hf
      rcases hf with rfl | rfl | rfl <;> exact Outcome.noConfusion hmsg)

/-! ### Project index -/

theorem htmlReplacement_plain (c : Char) (h : plainTextChar c = true) :
    htmlReplacement c = [c] := by
  simp only [plainTextChar, Bool.not_eq_true', Bool.or_eq_false_iff,
    decide_eq_false_iff_not] at h
  obtain ⟨⟨⟨⟨⟨⟨h0, h1⟩, h2⟩, h3⟩, h4⟩, h5⟩, h6⟩ := h
  simp [htmlReplacement, h0, h1, h2, h3, h4, h5, h6]

theorem flatMap_plain (f : Char → List Char) (l : List Char) (h : ∀ c ∈ l, f c = [c]) :
    l.flatMap f = l := by
  induction l with
  | nil => rfl
  | cons c cs ih =>
    rw [List.flatMap_cons, h c (List.mem_cons_self _ _),
      ih (fun d hd => h d (List.mem_cons_of_mem _ hd))]
    rfl

theorem htmlReplacer_plain (s : String) (h : plainText s = true) : htmlReplacer s = s := by
  unfold htmlReplacer
  rw [flatMap_plain]
  intro c hc
  exact htmlReplacement_plain c (List.all_eq_true.1 h c hc)

theorem ne_of_not_alnum (c : Char) (h : isAlnum c = true) (d : Char)
    (hd : isAlnum d = false) : c ≠ d := by
  intro hcd
  rw [hcd, hd] at h
  exact Bool.false_ne_true h

theorem urlKeep_alnum (norm : Bool) (c : Char) (rest : List Char) (h : isAlnum c = true) :
    urlKeep norm c rest = true := by
  have hne := ne_of_not_alnum c h
  unfold urlKeep
  rw [if_neg, if_neg, if_neg]
  · exact h
  · exact hne '%' (by decide)
  · simp [hne '-' (by decide), hne '.' (by decide), hne '_' (by decide), hne '~' (by decide)]
  · simp [hne '!' (by decide), hne '#' (by decide), hne '$' (by decide), hne '&' (by decide), hne '*' (by decide), hne '+' (by decide), hne ',' (by decide), hne '/' (by decide), hne ':' (by decide), hne ';' (by decide), hne '=' (by decide), hne '?' (by decide), hne '@' (by decide), hne '[' (by decide), hne ']' (by decide)]

theorem plainTextChar_alnum (c : Char) (h : isAlnum c = true) : plainTextChar c = true := by
  have hne := ne_of_not_alnum c h
  have h0 : c ≠ Char.ofNat 0 := hne (Char.ofNat 0) (by decide)
  simp [plainTextChar, h0, hne '"' (by decide), hne '&' (by decide), hne '\'' (by decide), hne '+' (by decide), hne '<' (by decide), hne '>' (by decide)]

theorem plainTokenChar_keep (norm : Bool) (c : Char) (rest : List Char)
    (h : plainTokenChar c = true) :
    urlKeep norm c rest = true ∧ plainTextChar c = true := by
  simp only [plainTokenChar, Bool.or_eq_true, decide_eq_true_eq] at h
  rcases h with (((h | h) | h) | h) | h
  · exact ⟨urlKeep_alnum norm c rest h, plainTextChar_alnum c h⟩
  all_goals
    subst h
    exact ⟨by simp [urlKeep], by decide⟩

theorem plainURLChar_keep (c : Char) (rest : List Char) (h : plainURLChar c = true) :
    urlKeep true c rest = true ∧ plainTextChar c = true := by
  simp only [plainURLChar, Bool.or_eq_true, decide_eq_true_eq] at h
  rcases h with ((((((((((((h | h) | h) | h) | h) | h) | h) | h) | h) | h) | h) | h) | h) | h
  · exact plainTokenChar_keep true c rest h
  all_goals
    subst h
    exact ⟨by simp [urlKeep], by decide⟩

theorem processURL_plain (norm : Bool) (l : List Char)
    (h : ∀ c ∈ l, ∀ rest, urlKeep norm c rest = true) : processURL norm l = l := by
  induction l with
  | nil => rfl
  | cons c cs ih =>
    rw [processURL, if_pos (h c (List.mem_cons_self _ _) cs),
      ih (fun d hd => h d (List.mem_cons_of_mem _ hd))]
    rfl

theorem urlStart_plain (s : String) (h : plainURL s = true) :
    Escaper.urlStart.apply s = s := by
  simp only [plainURL, Bool.and_eq_true] at h
  have hchars := List.all_eq_true.1 h.2
  have hfilter : urlFilter s = s := by simp [urlFilter, h.1]
  have hnorm : urlNormalizer s = s := by
    unfold urlNormalizer
    rw [processURL_plain]
    intro c hc rest
    exact (plainURLChar_keep c rest (hchars c hc)).1
  have htext : plainText s = true :=
    List.all_eq_true.2 (fun c hc => (plainURLChar_keep c [] (hchars c hc)).2)
  simp only [Escaper.apply, attrEscaper, hfilter, hnorm, htmlReplacer_plain s htext]

theorem urlFragment_plain (s : String) (h : plainToken s = true) :
    Escaper.urlFragment.apply s = s := by
  have hchars := List.all_eq_true.1 h
  have hesc : urlEscaper s = s := by
    unfold urlEscaper
    rw [processURL_plain]
    intro c hc rest
    exact (plainTokenChar_keep false c rest (hchars c hc)).1
  have htext : plainText s = true :=
    List.all_eq_true.2 (fun c hc => (plainTokenChar_keep false c [] (hchars c hc)).2)
  simp only [Escaper.apply, attrEscaper, hesc, htmlReplacer_plain s htext]

theorem text_plain (s : String) (h : plainText s = true) : Escaper.text.apply s = s := by
  simp only [Escaper.apply, htmlEscaper, htmlReplacer_plain s h]

theorem executeRange_anchor_lines (artifacts : List Artifact) :
    executeRange
        [ ItemNode.text "    <a href=\"", ItemNode.field .URL .urlStart,
          ItemNode.text "#sha256=", ItemNode.field .SHA256 .urlFragment, ItemNode.text "\">",
          ItemNode.field .Filename .text, ItemNode.text "</a><br>\n" ] artifacts =
      concatLines (artifacts.map (fun a =>
        anchorLine (Escaper.urlStart.apply a.URL) (Escaper.urlFragment.apply a.SHA256)
          (Escaper.text.apply a.Filename))) := by
  induction artifacts with
  | nil => rfl
  | cons a rest ih =>
    simp only [executeRange, List.map_cons, concatLines, ih, executeItem, Artifact.field,
      anchorLine, String.append_assoc, String.append_empty]

theorem execute_projectIndexTemplate (projectName : String) (artifacts : List Artifact) :
    execute { ProjectName := projectName, Artifacts := artifacts } projectIndexTemplate =
      projectIndexDocument projectName (artifacts.map (fun a =>
        anchorLine (Escaper.urlStart.apply a.URL) (Escaper.urlFragment.apply a.SHA256)
          (Escaper.text.apply a.Filename))) := by
  simp only [projectIndexTemplate, execute, executeRange_anchor_lines, projectIndexDocument,
    projectIndexHead, Escaper.apply, String.append_assoc, String.append_empty]

set_option maxRecDepth 8000 in
/-- C6 (as stated, refuted): for an Artifact named `libstdc++.tar.gz` the project index
holds an anchor whose href and link text have each `+` rewritten to `&#43;`; the anchor
built from the field values themselves does not occur in the document. -/
theorem project_index_escapes_field_values :
    (generateProjectIndex sampleEnv "releases/linux/simple/python/index.html" "python"
        [{ Filename := "libstdc++.tar.gz",
           URL := "https://example.org/dist/libstdc++.tar.gz", SHA256 := "", Size := 0 }]
        (fun _ => none)).1 "releases/linux/simple/python/index.html" =
      some (projectIndexDocument "python"
        [anchorLine "https://example.org/dist/libstdc&#43;&#43;.tar.gz" ""
          "libstdc&#43;&#43;.tar.gz"]) ∧
    Contains
        (projectIndexDocument "python"
          [anchorLine "https://example.org/dist/libstdc&#43;&#43;.tar.gz" ""
            "libstdc&#43;&#43;.tar.gz"])
        "<a href=\"https://example.org/dist/libstdc++.tar.gz#sha256=\">libstdc++.tar.gz</a>" =
      false := by
  decide

/-- C6 (amended): when the file can be created and written, the project index written by
`generateProjectIndex` is the head naming the project, then one anchor line per Artifact
in list order, each of the form `<a href="U#sha256=S">F</a><br>` where U, S and F are the
URL, SHA256 and Filename as escaped by `html/template`, then the closing tags.  U, S and
F are the field values themselves when the URL passes the scheme filter and the three
values hold only characters the escapers leave unchanged; an empty SHA256 gives the
fragment `#sha256=`, and an empty list gives no anchor line. -/
theorem generateProjectIndex_document (env : Env) (path projectName : String)
    (artifacts : List Artifact) (fs : FS)
    (hcreate : env.create path = none) (hwrite : env.writeFault path = none) :
    generateProjectIndex env path projectName artifacts fs =
      (fs.write path (projectIndexDocument projectName (artifacts.map (fun a =>
        anchorLine (Escaper.urlStart.apply a.URL) (Escaper.urlFragment.apply a.SHA256)
          (Escaper.text.apply a.Filename)))), none) ∧
    ((∀ a ∈ artifacts,
        plainURL a.URL = true ∧ plainToken a.SHA256 = true ∧ plainText a.Filename = true) →
      generateProjectIndex env path projectName artifacts fs =
        (fs.write path (projectIndexDocument projectName (artifacts.map (fun a =>
          anchorLine a.URL a.SHA256 a.Filename))), none)) ∧
    Escaper.urlFragment.apply "" = "" ∧
    (artifacts = [] →
      generateProjectIndex env path projectName artifacts fs =
        (fs.write path (projectIndexHead projectName ++ "</body>\n</html>\n"), none)) := by
  have hmain : generateProjectIndex env path projectName artifacts fs =
      (fs.write path (projectIndexDocument projectName (artifacts.map (fun a =>
        anchorLine (Escaper.urlStart.apply a.URL) (Escaper.urlFragment.apply a.SHA256)
          (Escaper.text.apply a.Filename)))), none) := by
    unfold generateProjectIndex writeTemplate
    simp only [hcreate, hwrite, execute_projectIndexTemplate]
  refine ⟨hmain, ?_, by decide, ?_⟩
  · intro hplain
    rw [hmain]
    have hlines : artifacts.map (fun a =>
        anchorLine (Escaper.urlStart.apply a.URL) (Escaper.urlFragment.apply a.SHA256)
          (Escaper.text.apply a.Filename)) =
        artifacts.map (fun a => anchorLine a.URL a.SHA256 a.Filename) := by
      apply List.map_congr_left
      intro a ha
      obtain ⟨h1, h2, h3⟩ := hplain a ha
      rw [urlStart_plain _ h1, urlFragment_plain _ h2, text_plain _ h3]
    rw [hlines]
  · intro hnil
    rw [hmain, hnil]
    rfl

set_option maxRecDepth 8000 in
theorem generateProjectIndex_document_witness :
    (generateProjectIndex sampleEnv "releases/linux/simple/python/index.html" "python"
        [{ Filename := "Python-3.14.0.tar.xz",
           URL := "https://www.python.org/ftp/python/3.14.0/Python-3.14.0.tar.xz",
           SHA256 := "3a6eb0790f39ac87c94f3856b2dd2c5d110e6811602261a9a923d3bb23adc8b7",
           Size := 4 }]
        (fun _ => none)).1 "releases/linux/simple/python/index.html" =
      some "<!DOCTYPE html>\n<html>\n<head>\n    <title>Links for python</title>\n</head>\n<body>\n    <h1>Links for python</h1>\n    <a href=\"https://www.python.org/ftp/python/3.14.0/Python-3.14.0.tar.xz#sha256=3a6eb0790f39ac87c94f3856b2dd2c5d110e6811602261a9a923d3bb23adc8b7\">Python-3.14.0.tar.xz</a><br>\n</body>\n</html>\n" :=
  ((congrArg (fun r => r.1 "releases/linux/simple/python/index.html")
    ((generateProjectIndex_document sampleEnv "releases/linux/simple/python/index.html"
      "python"
      [{ Filename := "Python-3.14.0.tar.xz",
         URL := "https://www.python.org/ftp/python/3.14.0/Python-3.14.0.tar.xz",
         SHA256 := "3a6eb0790f39ac87c94f3856b2dd2c5d110e6811602261a9a923d3bb23adc8b7",
         Size := 4 }]
      (fun _ => none) rfl rfl).2.1 (by decide))).trans (by decide))

/-! ### Index generation -/

theorem writeTemplate_ok (env : Env) (path : String) (tmpl : List Node)
    (data : projectIndexData) (fs : FS) :
    ((writeTemplate env path tmpl data fs).2 = none →
      (env.create path).isNone = true ∧ (env.writeFault path).isNone = true) ∧
    ((env.create path).isNone = true → (env.writeFault path).isNone = true →
      writeTemplate env path tmpl data fs = (fs.write path (execute data tmpl), none)) := by
  unfold writeTemplate
  cases hc : env.create path with
  | some msg => simp
  | none =>
    cases hw : env.writeFault path with
    | some fault => simp
    | none => simp

theorem generatePlatforms_succeeds (env : Env) (outputDir projectName : String)
    (artifacts : ArtifactMap) (platforms : List String) (fs : FS)
    (h : writesSucceed env outputDir projectName platforms = true) :
    generatePlatforms env outputDir projectName artifacts platforms fs =
      (applyWrites (plannedWrites outputDir projectName artifacts platforms) fs, none) := by
  induction platforms generalizing fs with
  | nil => rfl
  | cons platform rest ih =>
    simp only [writesSucceed, Bool.and_eq_true] at h
    obtain ⟨⟨⟨⟨⟨hdir, hc1⟩, hw1⟩, hc2⟩, hw2⟩, hrest⟩ := h
    have hroot := (writeTemplate_ok env (rootIndexPath outputDir platform) rootIndexTemplate
      { ProjectName := projectName, Artifacts := [] } fs).2 hc1 hw1
    have hproj := fun fs1 =>
      (writeTemplate_ok env (projectIndexPath outputDir platform projectName)
        projectIndexTemplate
        { ProjectName := projectName, Artifacts := artifacts platform } fs1).2 hc2 hw2
    rw [Option.isNone_iff_eq_none] at hdir
    unfold generatePlatforms
    simp only [hdir]
    unfold generateRootIndex generateProjectIndex
    unfold rootIndexPath at hroot
    unfold projectIndexPath at hproj
    simp only [hroot, hproj, ih _ hrest]
    rfl

theorem generatePlatforms_needs_success (env : Env) (outputDir projectName : String)
    (artifacts : ArtifactMap) (platforms : List String) (fs : FS)
    (h : (generatePlatforms env outputDir projectName artifacts platforms fs).2 = none) :
    writesSucceed env outputDir projectName platforms = true := by
  induction platforms generalizing fs with
  | nil => rfl
  | cons platform rest ih =>
    unfold generatePlatforms at h
    simp only at h
    cases hdir : env.mkdirAll (Join [Join [outputDir, platform, "simple"], projectName]) with
    | some msg => simp [hdir] at h
    | none =>
      simp only [hdir] at h
      rcases hr : generateRootIndex env (Join [Join [outputDir, platform, "simple"],
        "index.html"]) projectName fs with ⟨fs1, _ | msg⟩
      · simp only [hr] at h
        rcases hp : generateProjectIndex env
            (Join [Join [Join [outputDir, platform, "simple"], projectName], "index.html"])
            projectName (artifacts platform) fs1 with ⟨fs2, _ | msg⟩
        · simp only [hp] at h
          have h1 := (writeTemplate_ok env _ rootIndexTemplate
            { ProjectName := projectName, Artifacts := [] } fs).1
            (by unfold generateRootIndex at hr; rw [hr])
          have h2 := (writeTemplate_ok env _ projectIndexTemplate
            { ProjectName := projectName, Artifacts := artifacts platform } fs1).1
            (by unfold generateProjectIndex at hp; rw [hp])
          simp only [writesSucceed, rootIndexPath, projectIndexPath, hdir, h1.1, h1.2,
            h2.1, h2.2, ih fs2 h, Option.isNone_none, Bool.and_self]
        · simp [hp] at h
      · simp [hr] at h

theorem applyWrites_apply (writes : List (String × String)) (fs : FS) (path : String) :
    applyWrites writes fs path =
      match lastWrite writes path with
      | some content => some content
      | none => fs path := by
  induction writes generalizing fs with
  | nil => rfl
  | cons w rest ih =>
    have hstep : applyWrites (w :: rest) fs = applyWrites rest (fs.write w.1 w.2) := rfl
    rw [hstep, ih, lastWrite]
    cases lastWrite rest path with
    | some content => rfl
    | none =>
      by_cases hp : path = w.1
      · simp [FS.write, hp]
      · simp [FS.write, hp]

theorem applyWrites_idempotent (writes : List (String × String)) (fs : FS) :
    applyWrites writes (applyWrites writes fs) = applyWrites writes fs := by
  funext path
  rw [applyWrites_apply writes (applyWrites writes fs), applyWrites_apply writes fs]
  cases lastWrite writes path <;> rfl

theorem lastWrite_none (writes : List (String × String)) (path : String)
    (h : path ∉ writes.map Prod.fst) : lastWrite writes path = none := by
  induction writes with
  | nil => rfl
  | cons w rest ih =>
    simp only [List.map_cons, List.mem_cons, not_or] at h
    simp [lastWrite, ih h.2, h.1]

theorem lastWrite_nodup (writes : List (String × String)) (path content : String)
    (hnodup : (writes.map Prod.fst).Nodup) (hmem : (path, content) ∈ writes) :
    lastWrite writes path = some content := by
  induction writes with
  | nil => exact absurd hmem (List.not_mem_nil _)
  | cons w rest ih =>
    simp only [List.map_cons, List.nodup_cons] at hnodup
    rcases List.mem_cons.1 hmem with h | h
    · subst h
      simp [lastWrite, lastWrite_none rest path hnodup.1]
    · simp [lastWrite, ih hnodup.2 h]

theorem lastWrite_of_mem (writes : List (String × String)) (path : String)
    (h : path ∈ writes.map Prod.fst) : ∃ content, lastWrite writes path = some content := by
  induction writes with
  | nil => exact absurd h (List.not_mem_nil _)
  | cons w rest ih =>
    rw [lastWrite]
    cases hl : lastWrite rest path with
    | some content => exact ⟨content, rfl⟩
    | none =>
      simp only [List.map_cons, List.mem_cons] at h
      rcases h with h | h
      · exact ⟨w.2, by simp [h]⟩
      · obtain ⟨content, hc⟩ := ih h
        rw [hl] at hc
        exact Option.noConfusion hc

theorem plannedWrites_paths (outputDir projectName : String) (artifacts : ArtifactMap)
    (platforms : List String) :
    (plannedWrites outputDir projectName artifacts platforms).map Prod.fst =
      (plannedWrites outputDir projectName ArtifactMap.empty platforms).map Prod.fst := by
  induction platforms with
  | nil => rfl
  | cons platform rest ih => simp only [plannedWrites, List.map_cons, ih]

theorem plannedWrites_mem (outputDir projectName : String) (artifacts : ArtifactMap)
    (platforms : List String) (platform : String) (h : platform ∈ platforms) :
    (rootIndexPath outputDir platform, rootIndexDocument projectName) ∈
        plannedWrites outputDir projectName artifacts platforms ∧
      (projectIndexPath outputDir platform projectName,
          projectIndexOf projectName (artifacts platform)) ∈
        plannedWrites outputDir projectName artifacts platforms := by
  induction platforms with
  | nil => exact absurd h (List.not_mem_nil _)
  | cons q rest ih =>
    rcases List.mem_cons.1 h with hq | hq
    · subst hq
      simp [plannedWrites]
    · have := ih hq
      simp [plannedWrites, this.1, this.2]

set_option maxRecDepth 8000 in
/-- C9 (as stated, refuted): with the project name `../../mac/simple` the path that
`filepath.Join` gives the linux project index is `releases/mac/simple/index.html`, which
the later platforms overwrite; two artifact maps with the same linux list then leave
different content in that file, so its content does not depend on artifacts[linux]
only. -/
theorem project_index_paths_can_collide :
    projectIndexPath "releases" "linux" "../../mac/simple" = "releases/mac/simple/index.html" ∧
    (GeneratePyPIStructure sampleEnv "releases" "../../mac/simple"
        (convertToArtifacts ⟨["a.tar.gz"], [], ["b.exe"]⟩ "https://example.org/dist/")
        (fun _ => none)).2 = none ∧
    (GeneratePyPIStructure sampleEnv "releases" "../../mac/simple"
        (convertToArtifacts ⟨["a.tar.gz"], [], []⟩ "https://example.org/dist/")
        (fun _ => none)).2 = none ∧
    convertToArtifacts ⟨["a.tar.gz"], [], ["b.exe"]⟩ "https://example.org/dist/" "linux" =
      convertToArtifacts ⟨["a.tar.gz"], [], []⟩ "https://example.org/dist/" "linux" ∧
    (GeneratePyPIStructure sampleEnv "releases" "../../mac/simple"
        (convertToArtifacts ⟨["a.tar.gz"], [], ["b.exe"]⟩ "https://example.org/dist/")
        (fun _ => none)).1 (projectIndexPath "releases" "linux" "../../mac/simple") ≠
      (GeneratePyPIStructure sampleEnv "releases" "../../mac/simple"
        (convertToArtifacts ⟨["a.tar.gz"], [], []⟩ "https://example.org/dist/")
        (fun _ => none)).1 (projectIndexPath "releases" "linux" "../../mac/simple") := by
  decide

/-- C9 (amended): on a filesystem modelled as a map from path to content, whenever a run
of `GeneratePyPIStructure` succeeds, a second run with the same inputs succeeds and
leaves the filesystem exactly as the first run left it; the content of the six index
paths after a run does not depend on the filesystem before it, and no other path is
changed; and when the six paths built by `filepath.Join` are pairwise distinct, each
platform P has the root index of the project at `<output>/<P>/simple/index.html` and
the project index of artifacts[P] at `<output>/<P>/simple/<N>/index.html`. -/
theorem GeneratePyPIStructure_idempotent (env : Env) (outputDir projectName : String)
    (artifacts : ArtifactMap) (fs : FS)
    (hrun : (GeneratePyPIStructure env outputDir projectName artifacts fs).2 = none) :
    GeneratePyPIStructure env outputDir projectName artifacts
        (GeneratePyPIStructure env outputDir projectName artifacts fs).1 =
      ((GeneratePyPIStructure env outputDir projectName artifacts fs).1, none) ∧
    (∀ other : FS,
      (GeneratePyPIStructure env outputDir projectName artifacts other).2 = none ∧
      ∀ path ∈ indexPaths outputDir projectName,
        (GeneratePyPIStructure env outputDir projectName artifacts other).1 path =
          (GeneratePyPIStructure env outputDir projectName artifacts fs).1 path) ∧
    (∀ path, path ∉ indexPaths outputDir projectName →
      (GeneratePyPIStructure env outputDir projectName artifacts fs).1 path = fs path) ∧
    ((indexPaths outputDir projectName).Nodup →
      ∀ platform ∈ ["linux", "mac", "windows"],
        (GeneratePyPIStructure env outputDir projectName artifacts fs).1
            (rootIndexPath outputDir platform) =
          some (rootIndexDocument projectName) ∧
        (GeneratePyPIStructure env outputDir projectName artifacts fs).1
            (projectIndexPath outputDir platform projectName) =
          some (projectIndexOf projectName (artifacts platform))) := by
  have hok := generatePlatforms_needs_success env outputDir projectName artifacts
    ["linux", "mac", "windows"] fs hrun
  have hall := fun other => generatePlatforms_succeeds env outputDir projectName artifacts
    ["linux", "mac", "windows"] other hok
  have hpaths : (plannedWrites outputDir projectName artifacts
      ["linux", "mac", "windows"]).map Prod.fst = indexPaths outputDir projectName :=
    plannedWrites_paths outputDir projectName artifacts ["linux", "mac", "windows"]
  unfold GeneratePyPIStructure
  refine ⟨?_, ?_, ?_, ?_⟩
  · rw [hall fs, hall, applyWrites_idempotent]
  · intro other
    rw [hall other, hall fs]
    refine ⟨rfl, ?_⟩
    intro path hmem
    obtain ⟨content, hcontent⟩ := lastWrite_of_mem _ path (hpaths ▸ hmem)
    simp only [applyWrites_apply, hcontent]
  · intro path hpath
    rw [hall fs]
    simp only [applyWrites_apply, lastWrite_none _ path (hpaths ▸ hpath)]
  · intro hnodup platform hplatform
    rw [hall fs]
    have hmem := plannedWrites_mem outputDir projectName artifacts
      ["linux", "mac", "windows"] platform hplatform
    rw [← hpaths] at hnodup
    simp only [applyWrites_apply, lastWrite_nodup _ _ _ hnodup hmem.1,
      lastWrite_nodup _ _ _ hnodup hmem.2, and_self]

set_option maxRecDepth 8000 in
theorem GeneratePyPIStructure_idempotent_witness :
    (GeneratePyPIStructure sampleEnv "releases" "python"
        (convertToArtifacts
          ⟨["Python-3.14.0.tar.xz"], ["python-3.14.0-macos11.pkg"], ["python-3.14.0-amd64.exe"]⟩
          "https://www.python.org/ftp/python/3.14.0/")
        (fun _ => none)).1 "releases/windows/simple/python/index.html" =
      some "<!DOCTYPE html>\n<html>\n<head>\n    <title>Links for python</title>\n</head>\n<body>\n    <h1>Links for python</h1>\n    <a href=\"https://www.python.org/ftp/python/3.14.0/python-3.14.0-amd64.exe#sha256=\">python-3.14.0-amd64.exe</a><br>\n</body>\n</html>\n" :=
  (((GeneratePyPIStructure_idempotent sampleEnv "releases" "python"
    (convertToArtifacts
      ⟨["Python-3.14.0.tar.xz"], ["python-3.14.0-macos11.pkg"], ["python-3.14.0-amd64.exe"]⟩
      "https://www.python.org/ftp/python/3.14.0/")
    (fun _ => none) (by decide)).2.2.2 (by decide) "windows" (by decide)).2).trans (by decide)

end ReleaseDirList
